import Mathlib

/-!
# QueryClip — verification of the specification against the source

A shallow embedding of the QueryClip backend (`src/main.py`,
`src/transcript_retriever.py`, `src/notion_service.py`) in Lean 4.

Conventions used throughout:
* Python strings are modelled as `String` (with `List Char` as the working
  representation via `String.data`); `str.strip`, `str.split`, slicing and
  membership are given executable counterparts below.
* Wall-clock times (POSIX seconds, `datetime` values, `st_mtime`) are
  modelled as `ℚ`.  ISO-8601 timestamp strings compare lexicographically
  exactly as their time values compare, so `lastAccessedAt` is modelled by
  its time value.
* Calls to external services (the LLM provider, YouTube, yt-dlp, Whisper)
  are modelled by an explicit outcome parameter: `Except String String`
  for an LLM call (error message or response text), `Option` environments
  for the transcript strategies.
* A FastAPI handler either returns a JSON body (HTTP 200) or raises
  `HTTPException(status, detail)`; this is modelled by `HandlerResult`.
-/

namespace QueryClip

/-! ## Python string primitives -/

/-- The characters Python's `str.strip()` and `\s` treat as whitespace
(ASCII subset: space, tab, newline, carriage return, form feed,
vertical tab). -/
def isPySpace (c : Char) : Bool :=
  c = ' ' || c = '\t' || c = '\n' || c = '\r' || c = '\x0b' || c = '\x0c'

/-- Python `str.strip()` on a character list. -/
def stripChars (s : List Char) : List Char :=
  ((s.dropWhile isPySpace).reverse.dropWhile isPySpace).reverse

/-- Python `str.strip()`. -/
def pyStrip (s : String) : String := String.mk (stripChars s.data)

/-- Python slicing `s[:n]`. -/
def pyTake (n : ℕ) (s : String) : String := String.mk (s.data.take n)

/-- Whether `pat` occurs as a contiguous sublist of `s` (Python `pat in s`). -/
def containsSub (pat : List Char) : List Char → Bool
  | [] => pat = []
  | c :: rest => pat.isPrefixOf (c :: rest) || containsSub pat rest

/-- Worker for `splitSub`; `fuel` only forces structural recursion and is
always at least the input length at every call. -/
def splitSubF (sep : List Char) : ℕ → List Char → List (List Char)
  | _, [] => [[]]
  | 0, l => [l]
  | fuel + 1, c :: rest =>
    if sep ≠ [] && sep.isPrefixOf (c :: rest) then
      [] :: splitSubF sep fuel ((c :: rest).drop sep.length)
    else
      match splitSubF sep fuel rest with
      | [] => [[c]]
      | p :: ps => (c :: p) :: ps

/-- Python `s.split(sep)` for a non-empty separator: split on every
non-overlapping occurrence, left to right. -/
def splitSub (sep s : List Char) : List (List Char) := splitSubF sep s.length s

/-- Python `s.split('\n')` / joining helpers specialised to lines. -/
def splitLines (s : List Char) : List (List Char) := s.splitOn '\n'

def joinLines (ls : List (List Char)) : List Char := List.intercalate ['\n'] ls

/-! ## Caption post-processing (src/main.py 1116-1157 and 1555-1596)

Both `/api/generate-caption` and `/api/generate-structured-caption` apply
the same two post-processing passes to the stripped LLM response text:
first the legacy `TOPIC HEADING:`/`KEY POINTS:` rewriting, then the
generic bullet normalization. -/

/-- Lookahead `(?=\s+•|\s*$)` of the bullet-extraction pattern at the
start of `s`: either at least one whitespace character followed by `•`,
or only whitespace up to the end of the string. -/
def bulletLookahead (s : List Char) : Bool :=
  (match s with
   | c :: _ => isPySpace c && ((s.dropWhile isPySpace).head? = some '•')
   | [] => false)
  || s.all isPySpace

/-- The lazy group `([^•]+?)` of the bullet-extraction pattern: the
shortest non-empty run of non-`•` characters after which the lookahead
succeeds.  Returns the captured run and the remaining input (the
lookahead consumes nothing). -/
def lazyCapture : List Char → Option (List Char × List Char)
  | [] => none
  | c :: rest =>
    if c = '•' then none
    else if bulletLookahead rest then some ([c], rest)
    else match lazyCapture rest with
      | some (cap, rem) => some (c :: cap, rem)
      | none => none

/-- One match attempt of `•\s+([^•]+?)(?=\s+•|\s*$)` positioned just
after a `•`: the greedy `\s+` tries the maximal whitespace run first and
backtracks one character at a time (the capture class `[^•]` includes
whitespace, so shorter whitespace runs re-expose characters to the
capture). -/
def bulletTryMatch (afterBullet : List Char) : Option (List Char × List Char) :=
  let wsMax := (afterBullet.takeWhile isPySpace).length
  go wsMax afterBullet
where
  go : ℕ → List Char → Option (List Char × List Char)
    | 0, _ => none
    | k + 1, s =>
      match lazyCapture (s.drop (k + 1)) with
      | some r => some r
      | none => go k s

/-- `re.findall(r'•\s+([^•]+?)(?=\s+•|\s*$)', s)`: scan left to right;
each successful match contributes its group and scanning resumes at the
match end; a failed attempt advances one character. -/
def findBullets (fuel : ℕ) : List Char → List (List Char)
  | [] => []
  | c :: rest =>
    match fuel with
    | 0 => []
    | fuel + 1 =>
      if c = '•' then
        match bulletTryMatch rest with
        | some (cap, rem) => cap :: findBullets fuel rem
        | none => findBullets fuel rest
      else findBullets fuel rest

/-- Legacy-format pass (src/main.py 1119-1138, likewise 1558-1577): if the
caption begins with `TOPIC HEADING:` and contains `KEY POINTS:`, extract
the `•`-marked bullets from the text after the first `KEY POINTS:`
(possibly concatenated on one physical line) and re-emit them one per
line; otherwise, or when no bullet matches, the caption is unchanged. -/
def processLegacy (caption : List Char) : List Char :=
  if "TOPIC HEADING:".data.isPrefixOf caption && containsSub "KEY POINTS:".data caption then
    match splitSub "KEY POINTS:".data caption with
    | p0 :: p1 :: _ =>
      let header := stripChars p0
      let keyPoints := stripChars p1
      let found := findBullets (keyPoints.length + 1) keyPoints
      if found ≠ [] then
        let formattedPoints := joinLines (found.map (fun p => "• ".data ++ stripChars p))
        header ++ "\nKEY POINTS:\n".data ++ formattedPoints
      else caption
    | _ => caption
  else caption

/-- Generic bullet normalization (src/main.py 1141-1157, likewise
1580-1596): each line is stripped; a blank line stays empty; a line
already starting with `*`, `-` or `•` is kept; any other line is
prefixed with `"* "`. -/
def normalizeLine (line : List Char) : List Char :=
  let l := stripChars line
  if l = [] then []
  else if l.head? = some '*' || l.head? = some '-' || l.head? = some '•' then l
  else "* ".data ++ l

def normalizeCaption (caption : List Char) : List Char :=
  joinLines ((splitLines caption).map normalizeLine)

/-- The full caption post-processing applied to the raw LLM response:
`response.content[0].text.strip()`, then the legacy pass, then the
generic normalization. -/
def processCaption (raw : String) : String :=
  String.mk (normalizeCaption (processLegacy (stripChars raw.data)))

/-! ## HTTP handler results

A FastAPI handler body either returns a JSON value (HTTP 200) or raises
`HTTPException(status_code, detail)`. -/

inductive HandlerResult (α : Type) where
  | ok (body : α)
  | httpError (status : ℕ) (detail : String)
deriving DecidableEq

def HandlerResult.statusCode {α : Type} : HandlerResult α → ℕ
  | .ok _ => 200
  | .httpError s _ => s

/-- `str()` of a `fastapi.HTTPException`: `f"{status_code}: {detail}"`. -/
def httpExcStr (status : ℕ) (detail : String) : String :=
  toString status ++ ": " ++ detail

/-! ## Rate limiter (src/main.py 1027-1049)

`RateLimiter.wait_if_needed`, executed under `self.lock`: prune call
timestamps older than 60 seconds, sleep when the pruned count reaches the
ceiling, then record `now`.  The returned pair is the new `self.calls`
list and the slept duration (`none` when no sleep happened). -/

def wait_if_needed (maxCalls : ℕ) (calls : List ℚ) (now : ℚ) :
    List ℚ × Option ℚ :=
  ((calls.filter fun t => now - t < 60) ++ [now],
   if maxCalls ≤ (calls.filter fun t => now - t < 60).length then
     some (60 - (now - (calls.filter fun t => now - t < 60).headI) + 1/10)
   else none)

/-! ## Transcript query endpoint (src/main.py 1278-1410)

`POST /api/query-transcript`.  The handler's outer `try` block raises
`HTTPException(400, "Missing transcript or prompt")` when the transcript
list or the prompt is empty, and the LLM step raises
`HTTPException(500, ...)` on a remote failure; but the outer
`except Exception` clause catches *every* `Exception` — `HTTPException`
included — and re-raises it as
`HTTPException(500, f"Error processing transcript query: {str(e)}")`.
The LLM call is modelled by its outcome `llm`.  The best-effort history
write-back is modelled separately on the history store below. -/

structure TQSeg where
  start : ℚ
  text : String
deriving DecidableEq

structure QueryResponse where
  response : String
  prompt : String
deriving DecidableEq

def query_transcript (transcript : List TQSeg) (prompt : String)
    (llm : Except String String) : HandlerResult QueryResponse :=
  let inner : Except (ℕ × String) QueryResponse :=
    if transcript = [] || prompt = "" then
      .error (400, "Missing transcript or prompt")
    else
      match llm with
      | .error e => .error (500, "Error processing transcript query: " ++ e)
      | .ok answer => .ok ⟨answer, prompt⟩
  match inner with
  | .ok r => .ok r
  | .error e =>
    .httpError 500 ("Error processing transcript query: " ++ httpExcStr e.1 e.2)

/-! ## Caption generation endpoint (src/main.py 1051-1166)

`POST /api/generate-caption`.  Every path of the handler returns a JSON
dict: a missing API key and a failed LLM call are both reported as a
`caption_error` field next to a fallback `caption` string, and even the
outer `except Exception` clause returns a dict — the handler never
raises, so the endpoint's HTTP status is always 200.  An empty
transcript context is replaced by a placeholder sentence that only
enters the LLM prompt.  The LLM call is modelled by its outcome. -/

structure CaptionPayload where
  caption : String
  captionError : Option String
deriving DecidableEq

def generate_caption_api (hasApiKey : Bool) (llm : Except String String) :
    CaptionPayload :=
  if !hasApiKey then
    ⟨"Caption generation failed: API key not configured", some "Missing API key"⟩
  else
    match llm with
    | .error e => ⟨"Caption generation failed due to API error", some e⟩
    | .ok text => ⟨processCaption text, none⟩

def generate_caption_endpoint (hasApiKey : Bool) (llm : Except String String) :
    HandlerResult CaptionPayload :=
  .ok (generate_caption_api hasApiKey llm)

/-- The screenshot-capture result fields that captioning touches
(src/main.py 804-837). -/
structure CaptureResult where
  imageData : String
  timestamp : ℚ
  caption : Option String
  captionError : Option String
deriving DecidableEq

/-- Internal captioning during screenshot capture (src/main.py 813-837):
`capture_screenshot` awaits `generate_caption_api` and copies `caption`
into the capture result, plus `caption_error` when present; a captioning
failure never fails the capture. -/
def attach_caption (r : CaptureResult) (cp : CaptionPayload) : CaptureResult :=
  { r with
    caption := some cp.caption,
    captionError := match cp.captionError with
      | some e => some e
      | none => r.captionError }

/-! ## Transcript retrieval (src/transcript_retriever.py)

`EnhancedTranscriptRetriever`: four strategies tried in order, first
truthy result wins (every produced dict is non-empty, hence truthy).
Each strategy catches its own failures — including `NoTranscriptFound`
and `TranscriptsDisabled` in method 1 — and returns `None`; the waterfall
loop additionally swallows any escaping exception and proceeds.  The
external world each strategy consults is modelled by an explicit outcome
parameter. -/

structure TranscriptSegment where
  start : ℚ
  duration : ℚ
  text : String
deriving DecidableEq

structure TranscriptResult where
  method : String
  videoId : String
  language : String
  segments : List TranscriptSegment
deriving DecidableEq

/-- Outcome of the `YouTubeTranscriptApi.get_transcript` call of method 1:
a list of `(start, duration, text)` entries, or one of the caught failure
conditions (src/transcript_retriever.py 148-155), or the library being
absent (117-119). -/
inductive Method1Outcome where
  | success (entries : List (ℚ × ℚ × String))
  | noTranscriptFound
  | transcriptsDisabled
  | otherError (message : String)
  | unavailable
deriving DecidableEq

def method1_youtube_transcript_api (videoId : String) (o : Method1Outcome) :
    Option TranscriptResult :=
  match o with
  | .success entries =>
    some ⟨"youtube-transcript-api", videoId, "auto-detected",
      entries.map fun e => ⟨e.1, e.2.1, pyStrip e.2.2⟩⟩
  | _ => none

/-- One parsed VTT caption cue.  Its `start`/`end` timestamps are kept as
their colon-separated numeric components (Python `float` values modelled
as `ℚ`), so the 1/2/3-component time parser below applies to them. -/
structure VttCue where
  startParts : List ℚ
  endParts : List ℚ
  text : String
deriving DecidableEq

/-- `_time_to_seconds` (src/transcript_retriever.py 385-395): three
components are `H:M:S`, two are `M:S`, otherwise the first component
alone (an absent component list yields 0, unreachable for a `split`
result). -/
def time_to_seconds : List ℚ → ℚ
  | [h, m, s] => h * 3600 + m * 60 + s
  | [m, s] => m * 60 + s
  | p :: _ => p
  | [] => 0

/-- Python `text.replace('\n', ' ')`. -/
def collapseNewlines (s : String) : String :=
  String.mk (s.data.map fun c => if c = '\n' then ' ' else c)

def cueToSegment (c : VttCue) : TranscriptSegment :=
  ⟨time_to_seconds c.startParts,
   time_to_seconds c.endParts - time_to_seconds c.startParts,
   pyStrip (collapseNewlines c.text)⟩

/-- Method 2 (src/transcript_retriever.py 157-238): run yt-dlp, parse the
produced VTT file.  `env = none` covers every soft failure: missing
webvtt library, yt-dlp error/timeout/not found, no VTT file produced. -/
def method2_ytdlp_extraction (videoId : String) (env : Option (List VttCue)) :
    Option TranscriptResult :=
  env.map fun cues =>
    ⟨"yt-dlp", videoId, "auto-detected", cues.map cueToSegment⟩

/-- Method 3 (src/transcript_retriever.py 240-320): download a caption
track through the YouTube Data API in VTT form, parsed identically to
method 2.  `env = none` covers missing credential and API errors. -/
def method3_youtube_data_api (videoId : String) (env : Option (List VttCue)) :
    Option TranscriptResult :=
  env.map fun cues =>
    ⟨"youtube-data-api", videoId, "auto-detected", cues.map cueToSegment⟩

/-- Whisper output for method 4: detected language and `(start, end, text)`
spans. -/
structure WhisperOut where
  language : String
  spans : List (ℚ × ℚ × String)
deriving DecidableEq

/-- Method 4 (src/transcript_retriever.py 322-383). -/
def method4_whisper_transcription (videoId : String) (env : Option WhisperOut) :
    Option TranscriptResult :=
  env.map fun w =>
    ⟨"whisper-ai", videoId, w.language,
     w.spans.map fun s => ⟨s.1, s.2.1 - s.1, pyStrip s.2.2⟩⟩

/-- The waterfall loop (src/transcript_retriever.py 426-434): first
non-`None` result wins; a strategy's failure only moves on to the next
strategy. -/
def firstSuccess : List (Option TranscriptResult) → Option TranscriptResult
  | [] => none
  | none :: rest => firstSuccess rest
  | some t :: _ => some t

/-- `extract_video_id` (src/transcript_retriever.py 84-104): two
`re.search` patterns tried in order; each scans left to right for one of
its marker alternatives followed by a non-empty run of characters other
than `&`, newline, `?`, `#`. -/
def idStopChar (c : Char) : Bool :=
  c = '&' || c = '\n' || c = '?' || c = '#'

def searchMarkers (markers : List (List Char)) : List Char → Option (List Char)
  | [] => none
  | c :: rest =>
    match markers.find? (fun m => m.isPrefixOf (c :: rest)) with
    | some m =>
      let cand := ((c :: rest).drop m.length).takeWhile fun ch => !idStopChar ch
      if cand ≠ [] then some cand else searchMarkers markers rest
    | none => searchMarkers markers rest

def extract_video_id (url : String) : Option String :=
  match searchMarkers
      ["youtube.com/watch?v=".data, "youtu.be/".data, "youtube.com/embed/".data]
      url.data with
  | some i => some (String.mk i)
  | none =>
    match searchMarkers ["youtube.com/v/".data] url.data with
    | some i => some (String.mk i)
    | none => none

/-- `extract_transcript` (src/transcript_retriever.py 397-437): extract
the video id, then run the four-strategy waterfall. -/
def extract_transcript (url : String) (o1 : Method1Outcome)
    (env2 env3 : Option (List VttCue)) (env4 : Option WhisperOut) :
    Option TranscriptResult :=
  match extract_video_id url with
  | none => none
  | some vid =>
    firstSuccess
      [method1_youtube_transcript_api vid o1,
       method2_ytdlp_extraction vid env2,
       method3_youtube_data_api vid env3,
       method4_whisper_transcription vid env4]

/-! ## Video history store (src/main.py 408-520, 1168-1198, 1350-1393, 1413-1483)

The persisted `data/history.json` array.  `lastAccessedAt` is an ISO-8601
string in the source; such strings compare lexicographically exactly as
the instants they denote, so the field is modelled by its time value in
`ℚ`.  A Python falsy string field (absent key, `None`, or `""`) is
modelled as `none` where the code only distinguishes truthiness. -/

structure QueryAnswer where
  prompt : String
  response : String
  timestamp : ℚ
  model : String
  responseLength : ℕ
deriving DecidableEq

structure HistoryEntry where
  videoId : String
  title : String
  thumbnailUrl : Option String
  lastAccessedAt : ℚ
  transcript : Option String
  transcriptAnalysis : Option String
  queryAnswers : List QueryAnswer
deriving DecidableEq

/-- Python truthiness of an optional string field. -/
def optStrTruthy : Option String → Bool
  | none => false
  | some s => s ≠ ""

def defaultThumbnail (vid : String) : String :=
  "https://i.ytimg.com/vi/" ++ vid ++ "/mqdefault.jpg"

/-- Insert `a` into a descending-by-key list, after every element whose
key is at least `a`'s (so equal keys keep their original order). -/
def insertByKeyDesc {α : Type} (key : α → ℚ) (a : α) : List α → List α
  | [] => [a]
  | b :: l =>
    if key b < key a then a :: b :: l else b :: insertByKeyDesc key a l

/-- Python's `sorted(..., key=key, reverse=True)` / `.sort(key=key,
reverse=True)`: the stable descending sort, realised as left-to-right
stable insertion (any two stable sorts agree on every input). -/
def sortByKeyDesc {α : Type} (key : α → ℚ) (l : List α) : List α :=
  l.foldl (fun acc x => insertByKeyDesc key x acc) []

/-- `history.sort(key=lambda x: x.get('lastAccessedAt', ''), reverse=True)`:
stable, newest first. -/
def sortByLaaDesc (l : List HistoryEntry) : List HistoryEntry :=
  sortByKeyDesc (fun e => e.lastAccessedAt) l

/-- In-place update of the element at an index (`history[i] = ...`). -/
def listModify {α : Type} (f : α → α) : ℕ → List α → List α
  | _, [] => []
  | 0, x :: xs => f x :: xs
  | n + 1, x :: xs => x :: listModify f n xs

/-- The body of `POST /api/video-history` (`VideoHistoryItem` payload).
`thumbnailUrl`/`lastAccessedAt` are `none` when omitted or empty. -/
structure HistoryItemInput where
  videoId : String
  title : String
  thumbnailUrl : Option String
  lastAccessedAt : Option ℚ
  transcript : Option String
  transcriptAnalysis : Option String
  queryAnswers : List QueryAnswer
deriving DecidableEq

/-- Defaults filled by `add_or_update_video_history` (src/main.py
460-466), then `item.dict()` as stored. -/
def mkEntry (item : HistoryItemInput) (now : ℚ) : HistoryEntry :=
  { videoId := item.videoId,
    title := item.title,
    thumbnailUrl :=
      match item.thumbnailUrl with
      | none => if item.videoId ≠ "" then some (defaultThumbnail item.videoId) else none
      | some u => some u,
    lastAccessedAt := item.lastAccessedAt.getD now,
    transcript := item.transcript,
    transcriptAnalysis := item.transcriptAnalysis,
    queryAnswers := item.queryAnswers }

/-- `POST /api/video-history` (src/main.py 450-492): replace the entry
with the same video id in place or append, re-sort newest first,
truncate to 100, persist. -/
def add_or_update_video_history (history : List HistoryEntry)
    (item : HistoryItemInput) (now : ℚ) : List HistoryEntry :=
  let entry := mkEntry item now
  let updated :=
    match history.findIdx? (fun x => x.videoId = item.videoId) with
    | some i => listModify (fun _ => entry) i history
    | none => history ++ [entry]
  (sortByLaaDesc updated).take 100

/-- `DELETE /api/video-history/{video_id}` (src/main.py 494-520): filter
the id out (a 404 when nothing matched leaves the file unwritten, hence
the same collection either way). -/
def delete_video_history_item (history : List HistoryEntry) (vid : String) :
    List HistoryEntry :=
  history.filter fun e => e.videoId ≠ vid

inductive ContentField where
  | transcript
  | transcriptAnalysis
deriving DecidableEq

/-- `update_video_history_content` (src/main.py 1168-1198), the
best-effort write-back used by `/api/analyze-transcript`: set the content
field and refresh `lastAccessedAt` in place, then persist — with no
re-sort and no truncation. -/
def update_video_history_content (history : List HistoryEntry) (vid : String)
    (field : ContentField) (content : String) (now : ℚ) : List HistoryEntry :=
  match history.findIdx? (fun x => x.videoId = vid) with
  | none => history
  | some i =>
    listModify
      (fun e =>
        match field with
        | .transcript =>
          { e with transcript := some content, lastAccessedAt := now }
        | .transcriptAnalysis =>
          { e with transcriptAnalysis := some content, lastAccessedAt := now })
      i history

/-- The write-back of `/api/analyze-transcript` (src/main.py 1230-1236)
when a video id is present: the analysis, then the flattened plain-text
transcript, both written unconditionally through
`update_video_history_content`. -/
def analyze_transcript_writeback (history : List HistoryEntry) (vid : String)
    (analysis plainTranscript : String) (now : ℚ) : List HistoryEntry :=
  update_video_history_content
    (update_video_history_content history vid .transcriptAnalysis analysis now)
    vid .transcript plainTranscript now

/-- The best-effort write-back of `/api/query-transcript` (src/main.py
1350-1388): append to `queryAnswers`, refresh `lastAccessedAt` in place,
persist without re-sorting or truncating. -/
def query_transcript_writeback (history : List HistoryEntry)
    (vid prompt response : String) (now : ℚ) : List HistoryEntry :=
  match history.findIdx? (fun x => x.videoId = vid) with
  | none => history
  | some i =>
    listModify
      (fun e =>
        { e with
          queryAnswers := e.queryAnswers ++
            [⟨prompt, response, now, "claude-3-5-sonnet-20240620", response.length⟩],
          lastAccessedAt := now })
      i history

/-- The opportunistic upsert of `GET /api/video-info/{video_id}`
(src/main.py 1430-1477): refresh `title`/`thumbnailUrl`/`lastAccessedAt`
of an existing entry, fill `transcript` only when it was previously
falsy and a truthy transcript was fetched — or append a fresh entry —
then re-sort newest first and truncate to 100. -/
def video_info_upsert (history : List HistoryEntry) (vid title : String)
    (plainTranscript : Option String) (now : ℚ) : List HistoryEntry :=
  let updated :=
    match history.findIdx? (fun x => x.videoId = vid) with
    | some i =>
      listModify
        (fun e =>
          { e with
            title := title,
            thumbnailUrl := some (defaultThumbnail vid),
            lastAccessedAt := now,
            transcript :=
              if !optStrTruthy e.transcript && optStrTruthy plainTranscript then
                plainTranscript
              else e.transcript })
        i history
    | none =>
      history ++
        [{ videoId := vid, title := title,
           thumbnailUrl := some (defaultThumbnail vid),
           lastAccessedAt := now,
           transcript := plainTranscript,
           transcriptAnalysis := none,
           queryAnswers := [] }]
  (sortByLaaDesc updated).take 100

/-- Every operation on the persisted history collection.  The read-only
endpoints (`list`, `get by id`) never write the file and leave the
persisted collection unchanged. -/
inductive HistoryOp where
  | listAll
  | getById (vid : String)
  | addOrUpdate (item : HistoryItemInput) (now : ℚ)
  | deleteById (vid : String)
  | analyzeWriteback (vid analysis plainTranscript : String) (now : ℚ)
  | queryWriteback (vid prompt response : String) (now : ℚ)
  | videoInfoFetch (vid title : String) (plainTranscript : Option String) (now : ℚ)

def applyOp (s : List HistoryEntry) : HistoryOp → List HistoryEntry
  | .listAll => s
  | .getById _ => s
  | .addOrUpdate item now => add_or_update_video_history s item now
  | .deleteById vid => delete_video_history_item s vid
  | .analyzeWriteback vid analysis plain now =>
    analyze_transcript_writeback s vid analysis plain now
  | .queryWriteback vid prompt response now =>
    query_transcript_writeback s vid prompt response now
  | .videoInfoFetch vid title plain now => video_info_upsert s vid title plain now

/-- The persisted collection after a sequence of operations, starting
from the empty array the store is initialized to. -/
def runHistory (ops : List HistoryOp) : List HistoryEntry :=
  ops.foldl applyOp []

/-- "Ordered by `lastAccessedAt` descending". -/
def SortedByLaaDesc (l : List HistoryEntry) : Prop :=
  l.Pairwise fun a b => b.lastAccessedAt ≤ a.lastAccessedAt

/-! ## Screenshot cleanup (src/main.py 86-130) and state save filenames
(src/main.py 960-1014)

A screenshot-directory file is its name and its modification time
(`st_mtime`, seconds as `ℚ`). -/

structure FileEntry where
  name : String
  mtime : ℚ
deriving DecidableEq

/-- `re.match(r"yt_([^_]+)_", name)`: the name must start with `yt_`,
followed by a non-empty run of non-underscore characters, followed by
another underscore; the run is the video-id token.  (The `glob("yt_*")`
pre-filter is implied by the anchored match.) -/
def parseVideoIdChars (s : List Char) : Option (List Char) :=
  match s with
  | a :: b :: c :: rest =>
    if a = 'y' && b = 't' && c = '_' then
      let vid := rest.takeWhile fun ch => ch ≠ '_'
      if vid ≠ [] && (rest.dropWhile fun ch => ch ≠ '_') ≠ [] then some vid
      else none
    else none
  | _ => none

def parse_video_id (name : String) : Option String :=
  (parseVideoIdChars name.data).map String.mk

def SEVEN_DAYS : ℚ := 7 * 86400

/-- State of the first cleanup loop: files already deleted for age, and
the per-video-id groups (a Python dict keyed by video id, insertion
ordered, each group in directory-enumeration order). -/
structure CleanupPass1 where
  deleted : List FileEntry
  groups : List (String × List FileEntry)
deriving DecidableEq

def addToGroup (vid : String) (f : FileEntry) :
    List (String × List FileEntry) → List (String × List FileEntry)
  | [] => [(vid, [f])]
  | (k, fs) :: rest =>
    if k = vid then (k, fs ++ [f]) :: rest else (k, fs) :: addToGroup vid f rest

/-- One iteration of the first cleanup loop (src/main.py 95-115): skip a
name that does not carry the `yt_<videoId>_` convention; delete a
matching file older than `now - 7 days`; group a remaining matching file
by its video-id token. -/
def cleanupStep (now : ℚ) (st : CleanupPass1) (f : FileEntry) : CleanupPass1 :=
  match parse_video_id f.name with
  | none => st
  | some vid =>
    if f.mtime < now - SEVEN_DAYS then { st with deleted := st.deleted ++ [f] }
    else { st with groups := addToGroup vid f st.groups }

/-- The whole first loop. -/
def cleanupPass1 (now : ℚ) (files : List FileEntry) : CleanupPass1 :=
  files.foldl (cleanupStep now) ⟨[], []⟩

/-- `sorted(files, key=lambda x: x[1], reverse=True)`: stable,
newest first. -/
def sortByMtimeDesc (l : List FileEntry) : List FileEntry :=
  sortByKeyDesc (fun f => f.mtime) l

/-- Second loop (src/main.py 117-125): in any group above 50 files,
delete everything past the 50 newest. -/
def cleanupPass2 (groups : List (String × List FileEntry)) : List FileEntry :=
  groups.foldr
    (fun g acc =>
      (if 50 < g.2.length then (sortByMtimeDesc g.2).drop 50 else []) ++ acc)
    []

/-- `cleanup_old_screenshots`: the directory contents afterwards (files
through unlinked ones removed) and the list of deleted files. -/
def cleanup_old_screenshots (now : ℚ) (files : List FileEntry) :
    List FileEntry × List FileEntry :=
  let p1 := cleanupPass1 now files
  let deleted := p1.deleted ++ cleanupPass2 p1.groups
  (files.filter (fun f => f ∉ deleted), deleted)

/-- Python `int()` on a numeric timestamp: truncation toward zero. -/
def pyInt (q : ℚ) : ℤ := if q < 0 then ⌈q⌉ else ⌊q⌋

def pyDigitChar (d : ℕ) : Char :=
  if d = 0 then '0' else if d = 1 then '1' else if d = 2 then '2'
  else if d = 3 then '3' else if d = 4 then '4' else if d = 5 then '5'
  else if d = 6 then '6' else if d = 7 then '7' else if d = 8 then '8' else '9'

def natToCharsAux : ℕ → ℕ → List Char → List Char
  | 0, _, acc => acc
  | fuel + 1, n, acc =>
    if n < 10 then pyDigitChar (n % 10) :: acc
    else natToCharsAux fuel (n / 10) (pyDigitChar (n % 10) :: acc)

/-- Decimal digits of a natural number, most significant first. -/
def natToChars (n : ℕ) : List Char := natToCharsAux (n + 1) n []

/-- Python `str()` of an integer. -/
def intToChars (i : ℤ) : List Char :=
  if i < 0 then '-' :: natToChars i.natAbs else natToChars i.toNat

/-- The filename `save_state` writes an inline screenshot image to
(src/main.py 979-985): `f"{video_id}_{int(timestamp)}.png"`, where
`video_id` is the screenshot's `videoId` (`"unknown"` when absent) and
`timestamp` its timestamp (current time when absent). -/
def state_save_filename (videoId : String) (timestamp : ℚ) : String :=
  String.mk (videoId.data ++ '_' :: (intToChars (pyInt timestamp) ++ ".png".data))

/-! ## Workspace (Notion) export (src/notion_service.py 90-262)

`NotionService.save_video_to_notion` assembles the page-creation
payload's `properties` map from the fetched database schema (the
property-name → declared-type map of `check_database_access`).  The
model returns the assembled association list, or the configuration
error raised when the schema has no title-typed property. -/

inductive NotionPropType where
  | title
  | rich_text
  | select
  | url
  | number
  | other
deriving DecidableEq

inductive NotionValue where
  | titleV (content : String)
  | richTextV (content : String)
  | selectV (name : String)
  | urlV (address : String)
deriving DecidableEq

abbrev NotionSchema := List (String × NotionPropType)

/-- One transcript item as flattened at src/notion_service.py 190:
`f"{item.get('start', '')}-{item.get('end', '')}: {item.get('text', '')}"`
(fields hold the `get` results, so an absent key is the default). -/
structure NTranscriptItem where
  start : String
  stop : String
  text : String
deriving DecidableEq

def flattenTranscript (ts : List NTranscriptItem) : String :=
  String.intercalate "\n" (ts.map fun i => i.start ++ "-" ++ i.stop ++ ": " ++ i.text)

/-- One screenshot item as flattened at src/notion_service.py 201:
`f"Screenshot at {item.get('timestamp', 'unknown')}: {item.get('caption', '')}"`. -/
structure NScreenshotItem where
  timestamp : String
  caption : String
deriving DecidableEq

def flattenScreenshots (ss : List NScreenshotItem) : String :=
  String.intercalate "\n\n" (ss.map fun i => "Screenshot at " ++ i.timestamp ++ ": " ++ i.caption)

/-- The transcript-analysis object (`summary` / `keyPoints` accessed with
`.get`, so `none` models an absent or `None` value). -/
structure NAnalysis where
  summary : Option String
  keyPoints : Option (List String)
deriving DecidableEq

/-- The `Name`/title property (src/notion_service.py 120-134): the
property literally named `Name` if present (whatever its declared type),
else the first title-typed property, else a configuration error. -/
def titleProps (schema : NotionSchema) (title : String) :
    Except String (List (String × NotionValue)) :=
  if (schema.lookup "Name").isSome then .ok [("Name", .titleV title)]
  else
    match schema.find? (fun p => p.2 = .title) with
    | some p => .ok [(p.1, .titleV title)]
    | none =>
      .error "No title property found in database. Every Notion database needs a title property."

/-- `Author`/`Publisher` encoding (src/notion_service.py 137-159): rich
text or select according to the declared type; other declared types are
not written. -/
def personProps (schema : NotionSchema) (key value : String) :
    List (String × NotionValue) :=
  match schema.lookup key with
  | some .rich_text => [(key, .richTextV value)]
  | some .select => [(key, .selectV value)]
  | _ => []

/-- `URL` (src/notion_service.py 162-163): written whenever a property
named `URL` exists, with no check of its declared type. -/
def urlProps (schema : NotionSchema) (videoUrl : String) :
    List (String × NotionValue) :=
  if (schema.lookup "URL").isSome then [("URL", .urlV videoUrl)] else []

/-- A supplied-and-truthy optional text field backed by a same-named
rich-text property, truncated to Notion's 2000-character limit
(src/notion_service.py 166-183). -/
def textProps (schema : NotionSchema) (key : String) (value : Option String) :
    List (String × NotionValue) :=
  match value, schema.lookup key with
  | some v, some .rich_text =>
    if v ≠ "" then [(key, .richTextV (pyTake 2000 v))] else []
  | _, _ => []

/-- A supplied-and-non-empty list field flattened into a same-named
rich-text property (src/notion_service.py 186-206). -/
def listProps {α : Type} (schema : NotionSchema) (key : String)
    (value : Option (List α)) (flatten : List α → String) :
    List (String × NotionValue) :=
  match value, schema.lookup key with
  | some l, some .rich_text =>
    if !l.isEmpty then [(key, .richTextV (pyTake 2000 (flatten l)))] else []
  | _, _ => []

/-- `Summary` / `Key Points` from the transcript-analysis object
(src/notion_service.py 209-228). -/
def analysisProps (schema : NotionSchema) (ta : Option NAnalysis) :
    List (String × NotionValue) :=
  match ta with
  | none => []
  | some a =>
    textProps schema "Summary" a.summary ++
      listProps schema "Key Points" a.keyPoints
        (fun kps => "\n- " ++ String.intercalate "\n- " kps)

/-- `save_video_to_notion` (src/notion_service.py 90-262): the assembled
`properties` of the submitted page-creation payload. -/
def save_video_to_notion (schema : NotionSchema)
    (title videoId author publisher : String)
    (description : Option String) (transcript : Option (List NTranscriptItem))
    (notes : Option String) (screenshots : Option (List NScreenshotItem))
    (transcriptAnalysis : Option NAnalysis) :
    Except String (List (String × NotionValue)) :=
  let videoUrl := "https://www.youtube.com/watch?v=" ++ videoId
  match titleProps schema title with
  | .error e => .error e
  | .ok nameP =>
    .ok (nameP ++
      personProps schema "Author" author ++
      personProps schema "Publisher" publisher ++
      urlProps schema videoUrl ++
      textProps schema "Description" description ++
      textProps schema "Notes" notes ++
      listProps schema "Transcript" transcript flattenTranscript ++
      listProps schema "Screenshots" screenshots flattenScreenshots ++
      analysisProps schema transcriptAnalysis)

/-! # Theorems -/

/-! ## Sanity checks on the embedding -/

example : processCaption "first point\nsecond point" = "* first point\n* second point" := by decide

example :
    processCaption "TOPIC HEADING: X\nKEY POINTS: • a • b • c" =
      "* TOPIC HEADING: X\n* KEY POINTS:\n• a\n• b\n• c" := by decide

example : extract_video_id "https://www.youtube.com/watch?v=ABC123" = some "ABC123" := by decide
example : extract_video_id "https://youtu.be/ABC123" = some "ABC123" := by decide
example : extract_video_id "https://www.youtube.com/embed/ABC123" = some "ABC123" := by decide

/-! ## Shared helper lemmas -/

/-- A window filter keeps every timestamp when all are within 60 seconds
of `now`. -/
lemma filter_window_all (l : List ℚ) (now : ℚ) (h : ∀ t ∈ l, now - t < 60) :
    (l.filter fun t => now - t < 60) = l :=
  List.filter_eq_self.mpr fun a ha => by simpa using h a ha

/-! ## C6 — rate limiter -/

/-- C6: the acquire operation prunes timestamps older than 60 seconds,
suspends for `60 − (now − oldestRemaining) + 0.1` seconds when the pruned
count has reached the ceiling, and records `now`; six back-to-back calls
against the default ceiling of 5 leave the first five unblocked and
suspend the 6th for `60 − (t5 − t0) + 0.1` seconds. -/
theorem rate_limiter_sixth_call_waits (t0 t1 t2 t3 t4 t5 : ℚ)
    (h01 : t0 ≤ t1) (h12 : t1 ≤ t2) (h23 : t2 ≤ t3) (h34 : t3 ≤ t4)
    (h45 : t4 ≤ t5) (hw : t5 - t0 < 60) :
    wait_if_needed 5 [] t0 = ([t0], none) ∧
    wait_if_needed 5 [t0] t1 = ([t0, t1], none) ∧
    wait_if_needed 5 [t0, t1] t2 = ([t0, t1, t2], none) ∧
    wait_if_needed 5 [t0, t1, t2] t3 = ([t0, t1, t2, t3], none) ∧
    wait_if_needed 5 [t0, t1, t2, t3] t4 = ([t0, t1, t2, t3, t4], none) ∧
    wait_if_needed 5 [t0, t1, t2, t3, t4] t5 =
      ([t0, t1, t2, t3, t4, t5], some (60 - (t5 - t0) + 1/10)) := by
  refine ⟨?_, ?_, ?_, ?_, ?_, ?_⟩
  · simp [wait_if_needed]
  · rw [wait_if_needed, filter_window_all [t0] t1 (by
      intro t ht
      simp only [List.mem_cons, List.not_mem_nil, or_false] at ht
      rcases ht with rfl
      linarith)]
    norm_num
  · rw [wait_if_needed, filter_window_all [t0, t1] t2 (by
      intro t ht
      simp only [List.mem_cons, List.not_mem_nil, or_false] at ht
      rcases ht with rfl | rfl <;> linarith)]
    norm_num
  · rw [wait_if_needed, filter_window_all [t0, t1, t2] t3 (by
      intro t ht
      simp only [List.mem_cons, List.not_mem_nil, or_false] at ht
      rcases ht with rfl | rfl | rfl <;> linarith)]
    norm_num
  · rw [wait_if_needed, filter_window_all [t0, t1, t2, t3] t4 (by
      intro t ht
      simp only [List.mem_cons, List.not_mem_nil, or_false] at ht
      rcases ht with rfl | rfl | rfl | rfl <;> linarith)]
    norm_num
  · rw [wait_if_needed, filter_window_all [t0, t1, t2, t3, t4] t5 (by
      intro t ht
      simp only [List.mem_cons, List.not_mem_nil, or_false] at ht
      rcases ht with rfl | rfl | rfl | rfl | rfl <;> linarith)]
    norm_num [List.headI]

/-- C6 witness: concrete back-to-back calls at 0, 10, 20, 30, 40, 50
seconds; the 6th call sleeps `60 − 50 + 0.1` seconds. -/
theorem rate_limiter_sixth_call_waits_witness :
    wait_if_needed 5 [0, 10, 20, 30, 40] 50 =
      ([0, 10, 20, 30, 40, 50], some (60 - ((50 : ℚ) - 0) + 1/10)) :=
  (rate_limiter_sixth_call_waits 0 10 20 30 40 50 (by norm_num) (by norm_num)
    (by norm_num) (by norm_num) (by norm_num) (by norm_num)).2.2.2.2.2

/-! ## C3 — missing transcript/prompt on a query -/

/-- C3: a `/api/query-transcript` request with an empty transcript or an
empty prompt is answered with HTTP **500**, not 400: the handler raises
`HTTPException(400, "Missing transcript or prompt")`, but its own outer
`except Exception` clause catches that exception and re-raises it as a
500 whose detail embeds the original `400: ...` text. -/
theorem query_transcript_missing_input_gives_500 :
    query_transcript [] "summarize the video" (.ok "some answer") =
      .httpError 500 "Error processing transcript query: 400: Missing transcript or prompt" ∧
    query_transcript [⟨0, "hello"⟩] "" (.ok "some answer") =
      .httpError 500 "Error processing transcript query: 400: Missing transcript or prompt" ∧
    (query_transcript [] "summarize the video" (.ok "some answer")).statusCode ≠ 400 := by
  refine ⟨rfl, rfl, by decide⟩

/-! ## C4 — caption failure reporting -/

/-- C4 counterexample: calling `/api/generate-caption` directly while the
remote LLM call fails does **not** produce a hard HTTP 500 — the handler
returns a 200 payload carrying the soft `caption_error` field and the
fallback caption string. -/
theorem generate_caption_direct_failure_not_500 :
    (generate_caption_endpoint true (.error "Anthropic API connection error")).statusCode = 200 ∧
    (generate_caption_endpoint true (.error "Anthropic API connection error")).statusCode ≠ 500 ∧
    generate_caption_endpoint true (.error "Anthropic API connection error") =
      .ok ⟨"Caption generation failed due to API error",
           some "Anthropic API connection error"⟩ := by
  refine ⟨rfl, by decide, rfl⟩

/-- C4 amended: a remote-call failure is reported as a soft
`captionError` alongside the fallback caption string on **both** paths —
the directly-called endpoint (which still responds 200) and the internal
invocation from screenshot capture, which copies the same soft fields
into the capture result. -/
theorem caption_remote_failure_soft_both_paths (err : String) (r : CaptureResult) :
    generate_caption_endpoint true (.error err) =
      .ok ⟨"Caption generation failed due to API error", some err⟩ ∧
    attach_caption r (generate_caption_api true (.error err)) =
      { r with caption := some "Caption generation failed due to API error",
               captionError := some err } := by
  exact ⟨rfl, rfl⟩

/-! ## C5 — transcript waterfall -/

/-- C5: the waterfall tries its strategies in a fixed order and returns
the first success: method 1's "no transcript found" and "transcripts
disabled" conditions are swallowed into a `None`, and whenever method 1
fails and method 2 succeeds the overall result is exactly method 2's
output, tagged with method 2's identifier `yt-dlp`. -/
theorem transcript_waterfall_second_strategy (url vid : String)
    (hvid : extract_video_id url = some vid)
    (o1 : Method1Outcome)
    (h1 : method1_youtube_transcript_api vid o1 = none)
    (cues : List VttCue) (env3 : Option (List VttCue)) (env4 : Option WhisperOut) :
    method1_youtube_transcript_api vid .noTranscriptFound = none ∧
    method1_youtube_transcript_api vid .transcriptsDisabled = none ∧
    extract_transcript url o1 (some cues) env3 env4 =
      method2_ytdlp_extraction vid (some cues) ∧
    ∀ t, method2_ytdlp_extraction vid (some cues) = some t → t.method = "yt-dlp" := by
  refine ⟨rfl, rfl, ?_, ?_⟩
  · unfold extract_transcript
    rw [hvid]
    show firstSuccess [method1_youtube_transcript_api vid o1, _, _, _] = _
    rw [h1]
    rfl
  · intro t ht
    rw [show method2_ytdlp_extraction vid (some cues) =
          some ⟨"yt-dlp", vid, "auto-detected", cues.map cueToSegment⟩ from rfl] at ht
    cases ht
    rfl

/-- C5 witness: method 1 hits the "no transcript found" condition and
method 2 parses one VTT cue. -/
theorem transcript_waterfall_second_strategy_witness :
    extract_transcript "https://youtu.be/vid01" .noTranscriptFound
        (some [⟨[0], [1], "hi"⟩]) none none =
      method2_ytdlp_extraction "vid01" (some [⟨[0], [1], "hi"⟩]) :=
  (transcript_waterfall_second_strategy "https://youtu.be/vid01" "vid01" (by decide)
    .noTranscriptFound rfl [⟨[0], [1], "hi"⟩] none none).2.2.1

/-! ## C7 — caption bullet normalization -/

/-- C7: the generic normalization pass prefixes every non-blank line not
already starting with `*`, `-` or `•` with `"* "` and keeps marked and
blank lines; the no-marker input `"first point\nsecond point"` becomes
`"* first point\n* second point"`; and a legacy
`TOPIC HEADING:`/`KEY POINTS:` response first has its `•`-marked bullets
— concatenated on one physical line — split one per line before the
generic normalization runs.  (The code strips each line before testing
its marker, so the per-line statements are phrased on stripped lines.) -/
theorem caption_bullet_normalization :
    (∀ line : List Char, stripChars line = line → line ≠ [] →
       line.head? ≠ some '*' → line.head? ≠ some '-' → line.head? ≠ some '•' →
       normalizeLine line = '*' :: ' ' :: line) ∧
    (∀ line : List Char, stripChars line = line →
       (line.head? = some '*' ∨ line.head? = some '-' ∨ line.head? = some '•') →
       normalizeLine line = line) ∧
    normalizeLine [] = [] ∧
    processCaption "first point\nsecond point" = "* first point\n* second point" ∧
    processCaption "TOPIC HEADING: X\nKEY POINTS: • a • b • c" =
      "* TOPIC HEADING: X\n* KEY POINTS:\n• a\n• b\n• c" := by
  refine ⟨?_, ?_, by decide, by decide, by decide⟩
  · intro line hstrip hne h1 h2 h3
    simp [normalizeLine, hstrip, hne, h1, h2, h3]
  · intro line hstrip h
    have hne : line ≠ [] := by
      rcases h with h | h | h <;> (cases line <;> simp_all)
    rcases h with h | h | h <;> simp [normalizeLine, hstrip, hne, h]

/-- C7 witness: the unmarked line `hello` is prefixed; the marked line
`- hi` is kept. -/
theorem caption_bullet_normalization_witness :
    normalizeLine "hello".data = '*' :: ' ' :: "hello".data ∧
    normalizeLine "- hi".data = "- hi".data :=
  ⟨caption_bullet_normalization.1 "hello".data (by decide) (by decide)
      (by decide) (by decide) (by decide),
   caption_bullet_normalization.2.1 "- hi".data (by decide) (Or.inr (Or.inl (by decide)))⟩

/-! ## C9 — schema-driven workspace export -/

lemma lookup_isSome_of_mem (schema : NotionSchema) (p : String × NotionPropType)
    (hp : p ∈ schema) : (schema.lookup p.1).isSome := by
  induction schema with
  | nil => simp at hp
  | cons q rest ih =>
    obtain ⟨k, v⟩ := q
    rcases List.mem_cons.mp hp with h | h
    · subst h; simp [List.lookup]
    · by_cases hk : p.1 == k
      · simp [List.lookup, hk]
      · simpa [List.lookup, hk] using ih h

lemma titleProps_keys (schema : NotionSchema) (title : String)
    (props : List (String × NotionValue)) (h : titleProps schema title = .ok props) :
    ∀ kv ∈ props, (schema.lookup kv.1).isSome := by
  unfold titleProps at h
  by_cases hn : (schema.lookup "Name").isSome
  · rw [if_pos hn] at h
    cases h
    intro kv hkv
    simp only [List.mem_singleton] at hkv
    subst hkv
    exact hn
  · rw [if_neg hn] at h
    cases hf : schema.find? (fun p => p.2 = .title) with
    | none => rw [hf] at h; cases h
    | some p =>
      rw [hf] at h
      cases h
      intro kv hkv
      simp only [List.mem_singleton] at hkv
      subst hkv
      exact lookup_isSome_of_mem _ p (List.mem_of_find?_eq_some hf)

lemma personProps_keys (schema : NotionSchema) (key value : String) :
    ∀ kv ∈ personProps schema key value, (schema.lookup kv.1).isSome := by
  intro kv hkv
  unfold personProps at hkv
  cases hl : schema.lookup key with
  | none => rw [hl] at hkv; simp at hkv
  | some t =>
    rw [hl] at hkv
    cases t <;> simp only [List.mem_singleton, List.not_mem_nil] at hkv <;>
      first
        | exact absurd hkv (by simp)
        | (subst hkv; simp [hl])

lemma urlProps_keys (schema : NotionSchema) (videoUrl : String) :
    ∀ kv ∈ urlProps schema videoUrl, (schema.lookup kv.1).isSome := by
  intro kv hkv
  unfold urlProps at hkv
  by_cases hu : (schema.lookup "URL").isSome
  · rw [if_pos hu] at hkv
    simp only [List.mem_singleton] at hkv
    subst hkv
    exact hu
  · rw [if_neg hu] at hkv
    simp at hkv

lemma textProps_keys (schema : NotionSchema) (key : String) (v : Option String) :
    ∀ kv ∈ textProps schema key v, (schema.lookup kv.1).isSome := by
  intro kv hkv
  unfold textProps at hkv
  cases v with
  | none => simp at hkv
  | some s =>
    cases hl : schema.lookup key with
    | none => rw [hl] at hkv; simp at hkv
    | some t =>
      rw [hl] at hkv
      cases t <;> simp only at hkv <;> try simp at hkv
      case rich_text =>
        obtain ⟨hs, rfl⟩ := hkv
        simp [hl]

lemma listProps_keys {α : Type} (schema : NotionSchema) (key : String)
    (v : Option (List α)) (flatten : List α → String) :
    ∀ kv ∈ listProps schema key v flatten, (schema.lookup kv.1).isSome := by
  intro kv hkv
  unfold listProps at hkv
  cases v with
  | none => simp at hkv
  | some l =>
    cases hl : schema.lookup key with
    | none => rw [hl] at hkv; simp at hkv
    | some t =>
      rw [hl] at hkv
      cases t <;> simp only at hkv <;> try simp at hkv
      case rich_text =>
        obtain ⟨hs, rfl⟩ := hkv
        simp [hl]

lemma analysisProps_keys (schema : NotionSchema) (ta : Option NAnalysis) :
    ∀ kv ∈ analysisProps schema ta, (schema.lookup kv.1).isSome := by
  intro kv hkv
  unfold analysisProps at hkv
  cases ta with
  | none => simp at hkv
  | some a =>
    rcases List.mem_append.mp hkv with h | h
    · exact textProps_keys _ _ _ kv h
    · exact listProps_keys _ _ _ _ kv h

lemma textProps_truncated (schema : NotionSchema) (key : String) (v : Option String) :
    ∀ kv ∈ textProps schema key v, ∀ c, kv.2 = NotionValue.richTextV c →
      c.data.length ≤ 2000 := by
  intro kv hkv c hc
  unfold textProps at hkv
  cases v with
  | none => simp at hkv
  | some s =>
    cases hl : schema.lookup key with
    | none => rw [hl] at hkv; simp at hkv
    | some t =>
      rw [hl] at hkv
      cases t <;> simp only at hkv <;> try simp at hkv
      case rich_text =>
        obtain ⟨hs, rfl⟩ := hkv
        simp only [NotionValue.richTextV.injEq] at hc
        subst hc
        simp [pyTake]

lemma listProps_truncated {α : Type} (schema : NotionSchema) (key : String)
    (v : Option (List α)) (flatten : List α → String) :
    ∀ kv ∈ listProps schema key v flatten, ∀ c, kv.2 = NotionValue.richTextV c →
      c.data.length ≤ 2000 := by
  intro kv hkv c hc
  unfold listProps at hkv
  cases v with
  | none => simp at hkv
  | some l =>
    cases hl : schema.lookup key with
    | none => rw [hl] at hkv; simp at hkv
    | some t =>
      rw [hl] at hkv
      cases t <;> simp only at hkv <;> try simp at hkv
      case rich_text =>
        obtain ⟨hs, rfl⟩ := hkv
        simp only [NotionValue.richTextV.injEq] at hc
        subst hc
        simp [pyTake]

/-- C9: the workspace export is schema-driven — every property of the
submitted page-creation payload is the name of a property of the fetched
database schema; the long-text fields (description, notes, transcript,
screenshots, summary, key points) are truncated to 2000 characters; and
a schema containing only `Name` (title) and `URL` (url) yields a payload
whose properties are exactly `{Name, URL}` even when description, notes,
transcript, screenshots and analysis are all supplied. -/
theorem notion_schema_driven_mapping :
    (∀ (schema : NotionSchema) (title videoId author publisher : String)
       (d : Option String) (tr : Option (List NTranscriptItem)) (notes : Option String)
       (ss : Option (List NScreenshotItem)) (ta : Option NAnalysis)
       (props : List (String × NotionValue)),
       save_video_to_notion schema title videoId author publisher d tr notes ss ta =
         .ok props →
       ∀ kv ∈ props, (schema.lookup kv.1).isSome) ∧
    (∀ (schema : NotionSchema) (key : String) (v : Option String),
       ∀ kv ∈ textProps schema key v, ∀ c, kv.2 = NotionValue.richTextV c →
         c.data.length ≤ 2000) ∧
    (∀ (α : Type) (schema : NotionSchema) (key : String) (v : Option (List α))
       (flatten : List α → String),
       ∀ kv ∈ listProps schema key v flatten, ∀ c, kv.2 = NotionValue.richTextV c →
         c.data.length ≤ 2000) ∧
    save_video_to_notion [("Name", .title), ("URL", .url)] "My Title" "vid01"
        "QueryClip" "QueryClip" (some "a description") (some [⟨"0", "1", "text"⟩])
        (some "my notes") (some [⟨"12", "cap"⟩]) (some ⟨some "sum", some ["k1"]⟩) =
      .ok [("Name", .titleV "My Title"),
           ("URL", .urlV "https://www.youtube.com/watch?v=vid01")] := by
  refine ⟨?_, textProps_truncated, fun α => listProps_truncated, rfl⟩
  intro schema title videoId author publisher d tr notes ss ta props h kv hkv
  unfold save_video_to_notion at h
  cases ht : titleProps schema title with
  | error e => rw [ht] at h; cases h
  | ok nameP =>
    rw [ht] at h
    cases h
    rcases List.mem_append.mp hkv with h' | h'
    rotate_left
    · exact analysisProps_keys _ _ kv h'
    rcases List.mem_append.mp h' with h' | h'
    rotate_left
    · exact listProps_keys _ _ _ _ kv h'
    rcases List.mem_append.mp h' with h' | h'
    rotate_left
    · exact listProps_keys _ _ _ _ kv h'
    rcases List.mem_append.mp h' with h' | h'
    rotate_left
    · exact textProps_keys _ _ _ kv h'
    rcases List.mem_append.mp h' with h' | h'
    rotate_left
    · exact textProps_keys _ _ _ kv h'
    rcases List.mem_append.mp h' with h' | h'
    rotate_left
    · exact urlProps_keys _ _ kv h'
    rcases List.mem_append.mp h' with h' | h'
    rotate_left
    · exact personProps_keys _ _ _ kv h'
    rcases List.mem_append.mp h' with h' | h'
    rotate_left
    · exact personProps_keys _ _ _ kv h'
    · exact titleProps_keys _ _ _ ht kv h'

/-- C9 witness: in a schema with a rich-text `Notes` property, a
4000-character notes value is written truncated to 2000 characters, and
the key-presence part applied to a concrete save. -/
theorem notion_schema_driven_mapping_witness :
    (∀ kv ∈ textProps [("Notes", NotionPropType.rich_text)] "Notes"
        (some (String.mk (List.replicate 4000 'x'))),
      ∀ c, kv.2 = NotionValue.richTextV c → c.data.length ≤ 2000) ∧
    ∀ kv ∈ [("Name", NotionValue.titleV "My Title"),
            ("URL", NotionValue.urlV "https://www.youtube.com/watch?v=vid01")],
      (([("Name", NotionPropType.title), ("URL", NotionPropType.url)] :
          NotionSchema).lookup kv.1).isSome :=
  ⟨notion_schema_driven_mapping.2.1 [("Notes", NotionPropType.rich_text)] "Notes" _,
   notion_schema_driven_mapping.1 [("Name", .title), ("URL", .url)] "My Title" "vid01"
     "QueryClip" "QueryClip" (some "a description") (some [⟨"0", "1", "text"⟩])
     (some "my notes") (some [⟨"12", "cap"⟩]) (some ⟨some "sum", some ["k1"]⟩) _
     notion_schema_driven_mapping.2.2.2⟩

/-! ## C1 and C2 — history-store invariants -/

lemma length_listModify {α : Type} (f : α → α) :
    ∀ (i : ℕ) (l : List α), (listModify f i l).length = l.length
  | i, [] => by cases i <;> rfl
  | 0, _ :: _ => rfl
  | n + 1, _ :: xs => by simp [listModify, length_listModify f n xs]

lemma mem_listModify {α : Type} (f : α → α) :
    ∀ (i : ℕ) (l : List α) (x : α), x ∈ listModify f i l →
      x ∈ l ∨ ∃ y ∈ l, x = f y
  | _, [], x, hx => by simp [listModify] at hx
  | 0, a :: l, x, hx => by
    rcases List.mem_cons.mp hx with h | h
    · exact Or.inr ⟨a, List.mem_cons_self a l, h⟩
    · exact Or.inl (List.mem_cons_of_mem a h)
  | n + 1, a :: l, x, hx => by
    rcases List.mem_cons.mp hx with h | h
    · exact Or.inl (h ▸ List.mem_cons_self a l)
    · rcases mem_listModify f n l x h with h' | ⟨y, hy, hxy⟩
      · exact Or.inl (List.mem_cons_of_mem a h')
      · exact Or.inr ⟨y, List.mem_cons_of_mem a hy, hxy⟩

lemma insertByKeyDesc_perm {α : Type} (key : α → ℚ) (a : α) (l : List α) :
    (insertByKeyDesc key a l).Perm (a :: l) := by
  induction l with
  | nil => exact List.Perm.refl _
  | cons b l ih =>
    unfold insertByKeyDesc
    by_cases h : key b < key a
    · rw [if_pos h]
    · rw [if_neg h]
      exact (ih.cons b).trans (List.Perm.swap a b l)

lemma insertByKeyDesc_sorted {α : Type} (key : α → ℚ) (a : α) (l : List α)
    (h : l.Pairwise fun x y => key y ≤ key x) :
    (insertByKeyDesc key a l).Pairwise fun x y => key y ≤ key x := by
  induction l with
  | nil => simp [insertByKeyDesc]
  | cons b l ih =>
    rw [List.pairwise_cons] at h
    obtain ⟨hb, hl⟩ := h
    unfold insertByKeyDesc
    by_cases hba : key b < key a
    · rw [if_pos hba]
      refine List.pairwise_cons.mpr ⟨?_, List.pairwise_cons.mpr ⟨hb, hl⟩⟩
      intro x hx
      rcases List.mem_cons.mp hx with rfl | hx
      · exact hba.le
      · exact le_trans (hb x hx) hba.le
    · rw [if_neg hba]
      refine List.pairwise_cons.mpr ⟨?_, ih hl⟩
      intro x hx
      rcases List.mem_cons.mp ((insertByKeyDesc_perm key a l).mem_iff.mp hx) with rfl | hx'
      · exact not_lt.mp hba
      · exact hb x hx'

lemma sortByKeyDesc_aux_sorted {α : Type} (key : α → ℚ) :
    ∀ (l acc : List α), acc.Pairwise (fun x y => key y ≤ key x) →
      (l.foldl (fun acc x => insertByKeyDesc key x acc) acc).Pairwise
        fun x y => key y ≤ key x
  | [], _, h => h
  | x :: l, acc, h =>
    sortByKeyDesc_aux_sorted key l _ (insertByKeyDesc_sorted key x acc h)

lemma sortByKeyDesc_sorted {α : Type} (key : α → ℚ) (l : List α) :
    (sortByKeyDesc key l).Pairwise fun x y => key y ≤ key x :=
  sortByKeyDesc_aux_sorted key l [] (List.Pairwise.nil)

lemma sortByKeyDesc_aux_perm {α : Type} (key : α → ℚ) :
    ∀ (l acc : List α),
      (l.foldl (fun acc x => insertByKeyDesc key x acc) acc).Perm (acc ++ l)
  | [], acc => by simp
  | x :: l, acc => by
    refine (sortByKeyDesc_aux_perm key l _).trans ?_
    refine (((insertByKeyDesc_perm key x acc).append_right l).trans ?_)
    exact List.perm_middle.symm

lemma sortByKeyDesc_perm {α : Type} (key : α → ℚ) (l : List α) :
    (sortByKeyDesc key l).Perm l := by
  simpa using sortByKeyDesc_aux_perm key l []

lemma sortByLaaDesc_sorted (l : List HistoryEntry) :
    SortedByLaaDesc (sortByLaaDesc l) :=
  sortByKeyDesc_sorted _ l

lemma sortByLaaDesc_perm (l : List HistoryEntry) : (sortByLaaDesc l).Perm l :=
  sortByKeyDesc_perm _ l

lemma sorted_take_sortByLaaDesc (l : List HistoryEntry) (n : ℕ) :
    SortedByLaaDesc ((sortByLaaDesc l).take n) :=
  List.Pairwise.sublist (List.take_sublist n _) (sortByLaaDesc_sorted l)

lemma sorted_take_drop_laa (l : List HistoryEntry) (n : ℕ) :
    ∀ x ∈ (sortByLaaDesc l).drop n, ∀ y ∈ (sortByLaaDesc l).take n,
      x.lastAccessedAt ≤ y.lastAccessedAt := by
  have hs := sortByLaaDesc_sorted l
  rw [show sortByLaaDesc l = (sortByLaaDesc l).take n ++ (sortByLaaDesc l).drop n from
    (List.take_append_drop n _).symm] at hs
  have h' := (List.pairwise_append.mp hs).2.2
  intro x hx y hy
  exact h' y hy x hx

lemma length_update_content (s : List HistoryEntry) (vid : String)
    (field : ContentField) (content : String) (now : ℚ) :
    (update_video_history_content s vid field content now).length = s.length := by
  unfold update_video_history_content
  cases hfi : s.findIdx? (fun x => x.videoId = vid) with
  | none => rfl
  | some i => exact length_listModify _ i s

lemma length_query_writeback (s : List HistoryEntry) (vid prompt response : String)
    (now : ℚ) :
    (query_transcript_writeback s vid prompt response now).length = s.length := by
  unfold query_transcript_writeback
  cases hfi : s.findIdx? (fun x => x.videoId = vid) with
  | none => rfl
  | some i => exact length_listModify _ i s

lemma applyOp_length_le (s : List HistoryEntry) (op : HistoryOp)
    (h : s.length ≤ 100) : (applyOp s op).length ≤ 100 := by
  cases op with
  | listAll => exact h
  | getById _ => exact h
  | addOrUpdate item now => exact List.length_take_le 100 _
  | deleteById vid =>
    exact le_trans (List.length_filter_le _ s) h
  | analyzeWriteback vid analysis plain now =>
    show (analyze_transcript_writeback s vid analysis plain now).length ≤ 100
    unfold analyze_transcript_writeback
    rw [length_update_content, length_update_content]
    exact h
  | queryWriteback vid prompt response now =>
    show (query_transcript_writeback s vid prompt response now).length ≤ 100
    rw [length_query_writeback]
    exact h
  | videoInfoFetch vid title plain now => exact List.length_take_le 100 _

lemma runHistory_aux_length : ∀ (ops : List HistoryOp) (s : List HistoryEntry),
    s.length ≤ 100 → (ops.foldl applyOp s).length ≤ 100
  | [], _, h => h
  | op :: ops, s, h =>
    runHistory_aux_length ops (applyOp s op) (applyOp_length_le s op h)

/-- C1 counterexample: starting from the empty store, create entries `B`
then `A` (so the file holds `[A, B]`, newest first), then run the
transcript-analysis write-back on `B`.  The write-back refreshes `B`'s
`lastAccessedAt` in place without re-sorting, so the persisted array is
`[A(t=2), B(t=3)]` — not ordered by `lastAccessedAt` descending. -/
theorem history_order_broken_by_writeback :
    ¬ SortedByLaaDesc
        (runHistory
          [.addOrUpdate ⟨"B", "Title B", none, some 1, none, none, []⟩ 1,
           .addOrUpdate ⟨"A", "Title A", none, some 2, none, none, []⟩ 2,
           .analyzeWriteback "B" "the analysis" "plain transcript" 3]) ∧
    (runHistory
          [.addOrUpdate ⟨"B", "Title B", none, some 1, none, none, []⟩ 1,
           .addOrUpdate ⟨"A", "Title A", none, some 2, none, none, []⟩ 2,
           .analyzeWriteback "B" "the analysis" "plain transcript" 3]).map
        (fun e => e.lastAccessedAt) = [2, 3] := by
  have hrun : runHistory
          [.addOrUpdate ⟨"B", "Title B", none, some 1, none, none, []⟩ 1,
           .addOrUpdate ⟨"A", "Title A", none, some 2, none, none, []⟩ 2,
           .analyzeWriteback "B" "the analysis" "plain transcript" 3] =
      [⟨"A", "Title A", some "https://i.ytimg.com/vi/A/mqdefault.jpg", 2,
        none, none, []⟩,
       ⟨"B", "Title B", some "https://i.ytimg.com/vi/B/mqdefault.jpg", 3,
        some "plain transcript", some "the analysis", []⟩] := by decide
  constructor
  · intro hs
    rw [hrun] at hs
    have h32 := (List.pairwise_cons.mp hs).1 _ (List.mem_singleton.mpr rfl)
    norm_num at h32
  · rw [hrun]
    decide

/-- C1 amended: the persisted history collection always holds at most
100 entries; it is ordered by `lastAccessedAt` descending after every
create-or-update, metadata-fetch upsert, and delete; a create-or-update
of a fresh video id is exactly "sort, then keep the newest 100", so any
evicted entry has a `lastAccessedAt` no newer than every retained one.
(The transcript-analysis and transcript-query write-backs refresh
`lastAccessedAt` in place without re-sorting and can leave the persisted
array unordered — see the counterexample.) -/
theorem history_cap_and_eviction :
    (∀ ops : List HistoryOp, (runHistory ops).length ≤ 100) ∧
    (∀ s item now, SortedByLaaDesc (add_or_update_video_history s item now)) ∧
    (∀ s vid title plain now, SortedByLaaDesc (video_info_upsert s vid title plain now)) ∧
    (∀ s vid, SortedByLaaDesc s → SortedByLaaDesc (delete_video_history_item s vid)) ∧
    (∀ s item now, (∀ e ∈ s, ¬ e.videoId = item.videoId) →
       add_or_update_video_history s item now =
         (sortByLaaDesc (s ++ [mkEntry item now])).take 100 ∧
       ∀ x ∈ (sortByLaaDesc (s ++ [mkEntry item now])).drop 100,
         ∀ y ∈ add_or_update_video_history s item now,
           x.lastAccessedAt ≤ y.lastAccessedAt) := by
  refine ⟨?_, ?_, ?_, ?_, ?_⟩
  · intro ops
    exact runHistory_aux_length ops [] (by simp)
  · intro s item now
    exact sorted_take_sortByLaaDesc _ 100
  · intro s vid title plain now
    exact sorted_take_sortByLaaDesc _ 100
  · intro s vid hs
    exact List.Pairwise.sublist (List.filter_sublist s) hs
  · intro s item now hfresh
    have hfi : s.findIdx? (fun x => x.videoId = item.videoId) = none :=
      List.findIdx?_eq_none_iff.mpr fun x hx => by
        simpa using hfresh x hx
    have heq : add_or_update_video_history s item now =
        (sortByLaaDesc (s ++ [mkEntry item now])).take 100 := by
      unfold add_or_update_video_history
      rw [hfi]
    refine ⟨heq, ?_⟩
    intro x hx y hy
    rw [heq] at hy
    exact sorted_take_drop_laa _ 100 x hx y hy

/-- C1 witness: a create-or-update into the empty store is sorted, and
for a fresh id it equals "sort then keep the newest 100". -/
theorem history_cap_and_eviction_witness :
    SortedByLaaDesc
      (add_or_update_video_history [] ⟨"A", "T", none, some 1, none, none, []⟩ 1) ∧
    add_or_update_video_history [] ⟨"A", "T", none, some 1, none, none, []⟩ 1 =
      (sortByLaaDesc ([] ++ [mkEntry ⟨"A", "T", none, some 1, none, none, []⟩ 1])).take 100 :=
  ⟨history_cap_and_eviction.2.1 [] _ 1,
   (history_cap_and_eviction.2.2.2.2 [] _ 1 (by simp)).1⟩

/-- C2 counterexample: an entry holding the non-empty transcript `"old"`
has it replaced by the transcript-analysis write-back, which writes the
request's flattened transcript unconditionally. -/
theorem transcript_overwritten_by_analysis_writeback :
    optStrTruthy (some "old transcript") = true ∧
    (analyze_transcript_writeback
        [⟨"v1", "T", none, 1, some "old transcript", none, []⟩]
        "v1" "the analysis" "new transcript" 2).map (fun e => e.transcript) =
      [some "new transcript"] ∧
    some "new transcript" ≠ some "old transcript" := by
  refine ⟨rfl, by decide, by decide⟩

/-- C2 amended: only the metadata-fetch upsert preserves a non-empty
transcript (it fills the field only when previously falsy); the
transcript-analysis write-back overwrites the transcript unconditionally
(see the counterexample), and a create-or-update replaces the whole
entry, transcript included. -/
theorem transcript_preserved_by_metadata_upsert
    (s : List HistoryEntry) (vid title : String) (plain : Option String) (now : ℚ)
    (hnd : (s.map (fun e => e.videoId)).Nodup)
    (e : HistoryEntry) (he : e ∈ s) (hid : e.videoId = vid)
    (htr : optStrTruthy e.transcript = true) :
    ∀ e' ∈ video_info_upsert s vid title plain now,
      e'.videoId = vid → e'.transcript = e.transcript := by
  intro e' he' hid'
  unfold video_info_upsert at he'
  cases hfi : s.findIdx? (fun x => x.videoId = vid) with
  | none =>
    have := List.findIdx?_eq_none_iff.mp hfi e he
    simp [hid] at this
  | some i =>
    rw [hfi] at he'
    have h1 : e' ∈ sortByLaaDesc (listModify _ i s) := List.take_subset _ _ he'
    have h2 := (sortByLaaDesc_perm _).mem_iff.mp h1
    rcases mem_listModify _ i s e' h2 with h | ⟨y, hy, rfl⟩
    · have : e' = e := List.inj_on_of_nodup_map hnd h he (by rw [hid', hid])
      rw [this]
    · have hyid : y.videoId = vid := hid'
      have : y = e := List.inj_on_of_nodup_map hnd hy he (by rw [hyid, hid])
      subst this
      show (if !optStrTruthy y.transcript && optStrTruthy plain then plain
            else y.transcript) = y.transcript
      rw [htr]
      simp

/-- C2 witness: an entry with transcript `"keep"` still holds `"keep"`
after a metadata-fetch upsert that fetched a different transcript. -/
theorem transcript_preserved_by_metadata_upsert_witness :
    (⟨"v1", "New title", some "https://i.ytimg.com/vi/v1/mqdefault.jpg", 2,
        some "keep", none, []⟩ : HistoryEntry).transcript = some "keep" :=
  transcript_preserved_by_metadata_upsert
    [⟨"v1", "T", none, 1, some "keep", none, []⟩] "v1" "New title"
    (some "other transcript") 2 (by decide)
    ⟨"v1", "T", none, 1, some "keep", none, []⟩ (by decide) rfl rfl
    ⟨"v1", "New title", some "https://i.ytimg.com/vi/v1/mqdefault.jpg", 2,
      some "keep", none, []⟩ (by decide) rfl

/-! ## C8 — screenshot cleanup -/

lemma cleanupPass1_deleted_aux (now : ℚ) :
    ∀ (files : List FileEntry) (st : CleanupPass1),
      (files.foldl (cleanupStep now) st).deleted =
        st.deleted ++ files.filter
          (fun f => (parse_video_id f.name).isSome ∧ f.mtime < now - SEVEN_DAYS)
  | [], st => by simp
  | f :: fs, st => by
    simp only [List.foldl_cons, List.filter_cons]
    cases hp : parse_video_id f.name with
    | none =>
      have hstep : cleanupStep now st f = st := by simp [cleanupStep, hp]
      rw [hstep, cleanupPass1_deleted_aux now fs st]
      simp [hp]
    | some vid =>
      by_cases hm : f.mtime < now - SEVEN_DAYS
      · have hstep : cleanupStep now st f = { st with deleted := st.deleted ++ [f] } := by
          simp [cleanupStep, hp, hm]
        rw [hstep, cleanupPass1_deleted_aux now fs _]
        simp [hp, hm]
      · have hstep : cleanupStep now st f = { st with groups := addToGroup vid f st.groups } := by
          simp [cleanupStep, hp, hm]
        rw [hstep, cleanupPass1_deleted_aux now fs _]
        simp [hp, hm]

lemma cleanupPass1_deleted (now : ℚ) (files : List FileEntry) :
    (cleanupPass1 now files).deleted =
      files.filter
        fun f => (parse_video_id f.name).isSome ∧ f.mtime < now - SEVEN_DAYS := by
  simpa [cleanupPass1] using cleanupPass1_deleted_aux now files ⟨[], []⟩

lemma lookup_addToGroup (vid v : String) (f : FileEntry) :
    ∀ groups : List (String × List FileEntry),
      List.lookup v (addToGroup vid f groups) =
        if v = vid then some (((List.lookup v groups).getD []) ++ [f])
        else List.lookup v groups
  | [] => by
    simp only [addToGroup, List.lookup]
    cases hbeq : (v == vid) with
    | true => simp [beq_iff_eq.mp hbeq]
    | false => simp [beq_eq_false_iff_ne.mp hbeq]
  | (k, gs) :: rest => by
    by_cases hk : k = vid
    · subst hk
      simp only [addToGroup, if_pos rfl, List.lookup]
      cases hbeq : (v == k) with
      | true => simp [List.lookup, beq_iff_eq.mp hbeq]
      | false => simp [List.lookup, hbeq, beq_eq_false_iff_ne.mp hbeq]
    · simp only [addToGroup, if_neg hk, List.lookup]
      cases hbeq : (v == k) with
      | true =>
        have hvk := beq_iff_eq.mp hbeq
        subst hvk
        simp [List.lookup, hk]
      | false =>
        rw [lookup_addToGroup vid v f rest]

lemma cleanupPass1_groups_aux (now : ℚ) :
    ∀ (files : List FileEntry) (st : CleanupPass1) (vid : String),
      (((files.foldl (cleanupStep now) st).groups.lookup vid).getD []) =
        ((st.groups.lookup vid).getD []) ++
          files.filter (fun f => parse_video_id f.name = some vid ∧
            ¬ f.mtime < now - SEVEN_DAYS)
  | [], st, vid => by simp
  | f :: fs, st, vid => by
    simp only [List.foldl_cons, List.filter_cons]
    cases hp : parse_video_id f.name with
    | none =>
      have hstep : cleanupStep now st f = st := by simp [cleanupStep, hp]
      rw [hstep, cleanupPass1_groups_aux now fs st vid]
      simp [hp]
    | some v =>
      by_cases hm : f.mtime < now - SEVEN_DAYS
      · have hstep : cleanupStep now st f = { st with deleted := st.deleted ++ [f] } := by
          simp [cleanupStep, hp, hm]
        rw [hstep, cleanupPass1_groups_aux now fs _ vid]
        simp [hp, hm]
      · have hstep : cleanupStep now st f = { st with groups := addToGroup v f st.groups } := by
          simp [cleanupStep, hp, hm]
        rw [hstep, cleanupPass1_groups_aux now fs _ vid]
        by_cases hv : vid = v
        · subst hv
          rw [lookup_addToGroup vid vid f st.groups, if_pos rfl]
          simp [hp, hm]
        · rw [lookup_addToGroup v vid f st.groups, if_neg hv]
          have hv' : ¬ v = vid := fun h => hv h.symm
          simp [hp, hm, hv, hv']

lemma cleanupPass1_groups (now : ℚ) (files : List FileEntry) (vid : String) :
    (((cleanupPass1 now files).groups.lookup vid).getD []) =
      files.filter (fun f => parse_video_id f.name = some vid ∧
        ¬ f.mtime < now - SEVEN_DAYS) := by
  simpa [cleanupPass1] using cleanupPass1_groups_aux now files ⟨[], []⟩ vid

lemma keys_addToGroup (vid : String) (f : FileEntry) :
    ∀ groups : List (String × List FileEntry),
      (addToGroup vid f groups).map Prod.fst =
        if vid ∈ groups.map Prod.fst then groups.map Prod.fst
        else groups.map Prod.fst ++ [vid]
  | [] => by simp [addToGroup]
  | (k, gs) :: rest => by
    by_cases hk : k = vid
    · subst hk; simp [addToGroup]
    · have hk' : ¬ vid = k := fun h => hk h.symm
      simp only [addToGroup, if_neg hk, List.map_cons]
      rw [keys_addToGroup vid f rest]
      by_cases hv : vid ∈ rest.map Prod.fst
      · simp [hv, hk']
      · simp [hv, hk']

lemma keys_nodup_addToGroup (vid : String) (f : FileEntry)
    (groups : List (String × List FileEntry))
    (h : (groups.map Prod.fst).Nodup) :
    ((addToGroup vid f groups).map Prod.fst).Nodup := by
  rw [keys_addToGroup]
  by_cases hv : vid ∈ groups.map Prod.fst
  · simpa [hv] using h
  · simp [hv, List.nodup_append, h]

lemma cleanupPass1_keys_nodup_aux (now : ℚ) :
    ∀ (files : List FileEntry) (st : CleanupPass1),
      (st.groups.map Prod.fst).Nodup →
      ((files.foldl (cleanupStep now) st).groups.map Prod.fst).Nodup
  | [], _, h => h
  | f :: fs, st, h => by
    simp only [List.foldl_cons]
    refine cleanupPass1_keys_nodup_aux now fs _ ?_
    cases hp : parse_video_id f.name with
    | none => simpa [cleanupStep, hp] using h
    | some v =>
      by_cases hm : f.mtime < now - SEVEN_DAYS
      · simpa [cleanupStep, hp, hm] using h
      · have hstep : cleanupStep now st f =
            { st with groups := addToGroup v f st.groups } := by
          simp [cleanupStep, hp, hm]
        rw [hstep]
        exact keys_nodup_addToGroup v f st.groups h

lemma cleanupPass1_keys_nodup (now : ℚ) (files : List FileEntry) :
    ((cleanupPass1 now files).groups.map Prod.fst).Nodup :=
  cleanupPass1_keys_nodup_aux now files ⟨[], []⟩ (by simp)

lemma lookup_eq_of_mem_keys_nodup :
    ∀ (groups : List (String × List FileEntry)) (vid : String) (fs : List FileEntry),
      (groups.map Prod.fst).Nodup → (vid, fs) ∈ groups →
      groups.lookup vid = some fs
  | [], _, _, _, hmem => by simp at hmem
  | (k, gs) :: rest, vid, fs, hnd, hmem => by
    rcases List.mem_cons.mp hmem with h | h
    · injection h with h1 h2
      subst h1; subst h2
      simp [List.lookup]
    · have hknotmem : k ∉ rest.map Prod.fst := (List.nodup_cons.mp hnd).1
      have hk : ¬ vid = k := by
        intro hkv
        subst hkv
        exact hknotmem (List.mem_map.mpr ⟨(vid, fs), h, rfl⟩)
      rw [List.lookup_cons, beq_eq_false_iff_ne.mpr hk]
      exact lookup_eq_of_mem_keys_nodup rest vid fs (List.nodup_cons.mp hnd).2 h

lemma mem_of_lookup_eq_some :
    ∀ (groups : List (String × List FileEntry)) (vid : String) (fs : List FileEntry),
      groups.lookup vid = some fs → (vid, fs) ∈ groups
  | [], _, _, h => by simp [List.lookup] at h
  | (k, gs) :: rest, vid, fs, h => by
    rw [List.lookup_cons] at h
    cases hbeq : (vid == k) with
    | true =>
      rw [hbeq] at h
      obtain rfl : gs = fs := by injection h
      exact (beq_iff_eq.mp hbeq) ▸ List.mem_cons_self _ _
    | false =>
      rw [hbeq] at h
      exact List.mem_cons_of_mem _ (mem_of_lookup_eq_some rest vid fs h)

lemma mem_cleanupPass2 :
    ∀ (groups : List (String × List FileEntry)) (f : FileEntry),
      f ∈ cleanupPass2 groups ↔
        ∃ g ∈ groups, 50 < g.2.length ∧ f ∈ (sortByMtimeDesc g.2).drop 50
  | [], f => by simp [cleanupPass2]
  | g :: rest, f => by
    show f ∈ (if 50 < g.2.length then (sortByMtimeDesc g.2).drop 50 else []) ++
        cleanupPass2 rest ↔ _
    rw [List.mem_append]
    constructor
    · rintro (h | h)
      · by_cases hg : 50 < g.2.length
        · rw [if_pos hg] at h
          exact ⟨g, List.mem_cons_self _ _, hg, h⟩
        · rw [if_neg hg] at h; simp at h
      · obtain ⟨g', hg', h1, h2⟩ := (mem_cleanupPass2 rest f).mp h
        exact ⟨g', List.mem_cons_of_mem _ hg', h1, h2⟩
    · rintro ⟨g', hg', h1, h2⟩
      rcases List.mem_cons.mp hg' with rfl | hg'
      · exact Or.inl (by rw [if_pos h1]; exact h2)
      · exact Or.inr ((mem_cleanupPass2 rest f).mpr ⟨g', hg', h1, h2⟩)

/-- Each group of the first pass holds exactly the young matching files
of its video id, in directory order. -/
lemma group_members (now : ℚ) (files : List FileEntry) (vid : String)
    (fs : List FileEntry) (hg : (vid, fs) ∈ (cleanupPass1 now files).groups) :
    fs = files.filter (fun f => parse_video_id f.name = some vid ∧
      ¬ f.mtime < now - SEVEN_DAYS) := by
  have hlk := lookup_eq_of_mem_keys_nodup _ vid fs (cleanupPass1_keys_nodup now files) hg
  have h2 := cleanupPass1_groups now files vid
  rw [hlk] at h2
  simpa using h2

lemma sortByMtimeDesc_sorted (l : List FileEntry) :
    (sortByMtimeDesc l).Pairwise fun x y => y.mtime ≤ x.mtime :=
  sortByKeyDesc_sorted _ l

lemma sortByMtimeDesc_perm (l : List FileEntry) : (sortByMtimeDesc l).Perm l :=
  sortByKeyDesc_perm _ l

/-- With pairwise-distinct modification times, a file lies past the `n`
newest of its sorted group exactly when at least `n` group members are
strictly newer. -/
lemma mem_drop_sortByMtimeDesc (fs : List FileEntry) (n : ℕ) (f : FileEntry)
    (hnd : (fs.map fun g => g.mtime).Nodup) :
    f ∈ (sortByMtimeDesc fs).drop n ↔
      f ∈ fs ∧ n ≤ (fs.filter fun g => f.mtime < g.mtime).length := by
  have hperm : (sortByMtimeDesc fs).Perm fs := sortByMtimeDesc_perm fs
  have hsorted := sortByMtimeDesc_sorted fs
  have hndL : ((sortByMtimeDesc fs).map fun g => g.mtime).Nodup :=
    (hperm.map _).nodup_iff.mpr hnd
  have hne : (sortByMtimeDesc fs).Pairwise fun a b => a.mtime ≠ b.mtime :=
    List.pairwise_map.mp hndL
  have hTD : (sortByMtimeDesc fs).take n ++ (sortByMtimeDesc fs).drop n =
      sortByMtimeDesc fs := List.take_append_drop n _
  have hflen : ((sortByMtimeDesc fs).filter fun g => f.mtime < g.mtime).length =
      (fs.filter fun g => f.mtime < g.mtime).length :=
    (hperm.filter _).length_eq
  rw [← hTD] at hsorted hne
  have hgeTD := (List.pairwise_append.mp hsorted).2.2
  have hneTD := (List.pairwise_append.mp hne).2.2
  constructor
  · intro hf
    have hfL : f ∈ sortByMtimeDesc fs := List.drop_subset n _ hf
    refine ⟨hperm.mem_iff.mp hfL, ?_⟩
    have hstrict : ∀ x ∈ (sortByMtimeDesc fs).take n, f.mtime < x.mtime := by
      intro x hx
      exact lt_of_le_of_ne (hgeTD x hx f hf) (Ne.symm (hneTD x hx f hf))
    have hn : n < (sortByMtimeDesc fs).length := by
      by_contra hcon
      push_neg at hcon
      rw [List.drop_eq_nil_of_le hcon] at hf
      simp at hf
    have htake_len : ((sortByMtimeDesc fs).take n).length = n := by
      rw [List.length_take]; omega
    have htakefilter : ((sortByMtimeDesc fs).take n).filter
        (fun g => f.mtime < g.mtime) = (sortByMtimeDesc fs).take n :=
      List.filter_eq_self.mpr fun x hx => by simpa using hstrict x hx
    rw [← hflen, ← hTD, List.filter_append, List.length_append, htakefilter,
      htake_len]
    omega
  · rintro ⟨hffs, hcount⟩
    have hfL : f ∈ (sortByMtimeDesc fs).take n ++ (sortByMtimeDesc fs).drop n := by
      rw [hTD]; exact hperm.mem_iff.mpr hffs
    rcases List.mem_append.mp hfL with hT | hD
    · exfalso
      have hdropfilter : ((sortByMtimeDesc fs).drop n).filter
          (fun g => f.mtime < g.mtime) = [] :=
        List.filter_eq_nil_iff.mpr fun y hy => by
          simpa using not_lt.mpr (hgeTD f hT y hy)
      have hcount' : n ≤ (((sortByMtimeDesc fs).take n).filter
          (fun g => f.mtime < g.mtime)).length := by
        have : ((sortByMtimeDesc fs).filter fun g => f.mtime < g.mtime).length =
            (((sortByMtimeDesc fs).take n).filter
              (fun g => f.mtime < g.mtime)).length := by
          rw [← hTD, List.filter_append, hdropfilter]
          simp
        omega
      have hle := List.length_filter_le (fun g => decide (f.mtime < g.mtime))
        ((sortByMtimeDesc fs).take n)
      have hlen2 := List.length_take_le n (sortByMtimeDesc fs)
      have heq : (((sortByMtimeDesc fs).take n).filter
          (fun g => f.mtime < g.mtime)).length =
          ((sortByMtimeDesc fs).take n).length := by omega
      have := List.filter_length_eq_length.mp heq f hT
      simp at this
    · exact hD

/-- C8: the cleanup deletes exactly (i) every file carrying the
`yt_<videoId>_` naming convention whose modification time is older than
7 days, and (ii) among the remaining matching files grouped by video-id
token, those with at least 50 strictly newer files in their group — the
oldest beyond the 50 most recent; every other file is untouched
(the directory afterwards is the input minus the deleted files). -/
theorem cleanup_deletes_age_and_excess (now : ℚ) (files : List FileEntry)
    (hmt : (files.map fun f => f.mtime).Nodup) :
    (∀ f ∈ files,
      (f ∈ (cleanup_old_screenshots now files).2 ↔
        ((parse_video_id f.name).isSome ∧
         (f.mtime < now - SEVEN_DAYS ∨
          (¬ f.mtime < now - SEVEN_DAYS ∧
           50 ≤ ((files.filter fun g =>
                    parse_video_id g.name = parse_video_id f.name ∧
                    ¬ g.mtime < now - SEVEN_DAYS).filter
                  fun g => f.mtime < g.mtime).length))))) ∧
    (cleanup_old_screenshots now files).1 =
      files.filter fun f => f ∉ (cleanup_old_screenshots now files).2 := by
  refine ⟨?_, rfl⟩
  intro f hffiles
  show f ∈ (cleanupPass1 now files).deleted ++
      cleanupPass2 (cleanupPass1 now files).groups ↔ _
  rw [List.mem_append, cleanupPass1_deleted]
  constructor
  · rintro (h | h)
    · obtain ⟨-, hcond⟩ := List.mem_filter.mp h
      simp only [decide_eq_true_eq] at hcond
      exact ⟨hcond.1, Or.inl hcond.2⟩
    · obtain ⟨⟨vid, fs⟩, hg, hlen, hdrop⟩ := (mem_cleanupPass2 _ f).mp h
      have hfs := group_members now files vid fs hg
      have hfsnodup : (fs.map fun g => g.mtime).Nodup := by
        rw [hfs]
        exact List.Nodup.sublist (List.Sublist.map _ (List.filter_sublist files)) hmt
      have hmemfs : f ∈ fs :=
        (sortByMtimeDesc_perm fs).mem_iff.mp (List.drop_subset _ _ hdrop)
      have hchar := (mem_drop_sortByMtimeDesc fs 50 f hfsnodup).mp hdrop
      have hprops : parse_video_id f.name = some vid ∧
          ¬ f.mtime < now - SEVEN_DAYS := by
        have h' := hmemfs
        rw [hfs] at h'
        simpa using (List.mem_filter.mp h').2
      refine ⟨by rw [hprops.1]; rfl, Or.inr ⟨hprops.2, ?_⟩⟩
      have hrw : (files.filter fun g =>
          parse_video_id g.name = parse_video_id f.name ∧
          ¬ g.mtime < now - SEVEN_DAYS) = fs := by
        rw [hfs, hprops.1]
      rw [hrw]
      exact hchar.2
  · rintro ⟨hsome, hor⟩
    rcases hor with hold | ⟨hnotold, hcount⟩
    · exact Or.inl (List.mem_filter.mpr ⟨hffiles, by simp [hsome, hold]⟩)
    · right
      obtain ⟨vid, hvid⟩ := Option.isSome_iff_exists.mp hsome
      have hmemfs : f ∈ files.filter (fun g => parse_video_id g.name = some vid ∧
          ¬ g.mtime < now - SEVEN_DAYS) :=
        List.mem_filter.mpr ⟨hffiles, by simp [hvid, hnotold]⟩
      have hlookup := cleanupPass1_groups now files vid
      have hlk : (cleanupPass1 now files).groups.lookup vid =
          some (files.filter (fun g => parse_video_id g.name = some vid ∧
            ¬ g.mtime < now - SEVEN_DAYS)) := by
        cases hc : (cleanupPass1 now files).groups.lookup vid with
        | none =>
          rw [hc] at hlookup
          simp only [Option.getD_none] at hlookup
          rw [← hlookup] at hmemfs
          simp at hmemfs
        | some gs =>
          rw [hc] at hlookup
          simp only [Option.getD_some] at hlookup
          rw [hlookup]
      have hg := mem_of_lookup_eq_some _ vid _ hlk
      have hfsnodup : ((files.filter (fun g => parse_video_id g.name = some vid ∧
          ¬ g.mtime < now - SEVEN_DAYS)).map fun g => g.mtime).Nodup :=
        List.Nodup.sublist (List.Sublist.map _ (List.filter_sublist files)) hmt
      have hcount' : 50 ≤ ((files.filter (fun g => parse_video_id g.name = some vid ∧
          ¬ g.mtime < now - SEVEN_DAYS)).filter
            fun g => f.mtime < g.mtime).length := by
        rw [hvid] at hcount
        exact hcount
      have hlen : 50 < (files.filter (fun g => parse_video_id g.name = some vid ∧
          ¬ g.mtime < now - SEVEN_DAYS)).length := by
        by_contra hle
        rw [not_lt] at hle
        have h1 := List.length_filter_le (fun g => decide (f.mtime < g.mtime))
          (files.filter (fun g => parse_video_id g.name = some vid ∧
            ¬ g.mtime < now - SEVEN_DAYS))
        have heq : ((files.filter (fun g => parse_video_id g.name = some vid ∧
            ¬ g.mtime < now - SEVEN_DAYS)).filter
              fun g => f.mtime < g.mtime).length =
            (files.filter (fun g => parse_video_id g.name = some vid ∧
              ¬ g.mtime < now - SEVEN_DAYS)).length := by omega
        have := List.filter_length_eq_length.mp heq f hmemfs
        simp at this
      have hdrop := (mem_drop_sortByMtimeDesc _ 50 f hfsnodup).mpr ⟨hmemfs, hcount'⟩
      exact (mem_cleanupPass2 _ f).mpr ⟨(vid, _), hg, hlen, hdrop⟩

/-- Fixture for the per-video retention scenario: `n` screenshot files of
one video id with modification times `1, 2, ..., n`. -/
def scenarioFiles (n : ℕ) : List FileEntry :=
  (List.range n).map fun i => ⟨"yt_v_" ++ String.mk (natToChars i), (i : ℚ) + 1⟩

/-- C8 witness: the characterization applied to a concrete directory
(one stale matching file is deleted), and the claim's scenario — 60
files of one video id, all newer than 7 days, leave exactly the 50
newest and delete exactly the 10 oldest. -/
theorem cleanup_deletes_age_and_excess_witness :
    (⟨"yt_a_1.webp", -700000⟩ : FileEntry) ∈
      (cleanup_old_screenshots 0 [⟨"yt_a_1.webp", -700000⟩]).2 ∧
    ((cleanup_old_screenshots 100 (scenarioFiles 60)).2.map fun f => f.mtime) =
      [10, 9, 8, 7, 6, 5, 4, 3, 2, 1] ∧
    (cleanup_old_screenshots 100 (scenarioFiles 60)).1.length = 50 ∧
    ((cleanup_old_screenshots 100 (scenarioFiles 60)).1.map fun f => f.mtime) =
      (List.range 50).map fun i => ((i : ℚ) + 11) :=
  ⟨((cleanup_deletes_age_and_excess 0 [⟨"yt_a_1.webp", -700000⟩] (by decide)).1
      ⟨"yt_a_1.webp", -700000⟩ (by decide)).mpr (by with_unfolding_all decide),
   by with_unfolding_all decide, by with_unfolding_all decide,
   by with_unfolding_all decide⟩

/-! ## C10 — cleanup and state-save frame -/

/-- A name parsed by the cleanup convention starts with `yt_` and has a
second underscore after a non-empty id token. -/
lemma parseVideoIdChars_some {s vid : List Char}
    (h : parseVideoIdChars s = some vid) :
    ∃ rest, s = 'y' :: 't' :: '_' :: rest ∧
      (rest.dropWhile fun ch => ch ≠ '_') ≠ [] := by
  match s with
  | [] => simp [parseVideoIdChars] at h
  | [a] => simp [parseVideoIdChars] at h
  | [a, b] => simp [parseVideoIdChars] at h
  | a :: b :: c :: rest =>
    simp only [parseVideoIdChars] at h
    by_cases habc : a = 'y' ∧ b = 't' ∧ c = '_'
    · obtain ⟨rfl, rfl, rfl⟩ := habc
      refine ⟨rest, rfl, ?_⟩
      intro hdrop
      rw [if_pos (by simp)] at h
      rw [hdrop] at h
      simp at h
    · exfalso
      rw [if_neg (by simpa [and_assoc] using habc)] at h
      cases h

lemma natToCharsAux_no_underscore :
    ∀ (fuel n : ℕ) (acc : List Char), (∀ c ∈ acc, c ≠ '_') →
      ∀ c ∈ natToCharsAux fuel n acc, c ≠ '_'
  | 0, _, _, hacc => hacc
  | fuel + 1, n, acc, hacc => by
    have hd : pyDigitChar (n % 10) ≠ '_' := by
      unfold pyDigitChar
      split <;> try decide
      split <;> try decide
      split <;> try decide
      split <;> try decide
      split <;> try decide
      split <;> try decide
      split <;> try decide
      split <;> try decide
      split <;> decide
    unfold natToCharsAux
    by_cases hn : n < 10
    · rw [if_pos hn]
      intro c hc
      rcases List.mem_cons.mp hc with rfl | hc
      · exact hd
      · exact hacc c hc
    · rw [if_neg hn]
      exact natToCharsAux_no_underscore fuel (n / 10) _ (by
        intro c hc
        rcases List.mem_cons.mp hc with rfl | hc
        · exact hd
        · exact hacc c hc)

lemma intToChars_no_underscore (i : ℤ) : ∀ c ∈ intToChars i, c ≠ '_' := by
  unfold intToChars natToChars
  by_cases hi : i < 0
  · rw [if_pos hi]
    intro c hc
    rcases List.mem_cons.mp hc with rfl | hc
    · decide
    · exact natToCharsAux_no_underscore _ _ [] (by simp) c hc
  · rw [if_neg hi]
    exact natToCharsAux_no_underscore _ _ [] (by simp)

/-- C10 counterexample: a saved state screenshot whose `videoId` is
`"yt_a"` is written to `yt_a_0.png`, which matches the cleanup naming
convention; a cleanup run 8 days later deletes it. -/
theorem state_file_deleted_when_videoid_has_yt_prefix :
    state_save_filename "yt_a" 0 = "yt_a_0.png" ∧
    parse_video_id (state_save_filename "yt_a" 0) = some "a" ∧
    (⟨state_save_filename "yt_a" 0, 0⟩ : FileEntry) ∈
      (cleanup_old_screenshots 700000 [⟨state_save_filename "yt_a" 0, 0⟩]).2 := by
  refine ⟨by decide, by decide, by with_unfolding_all decide⟩

/-- C10 amended: cleanup only ever deletes files whose names parse under
the `yt_<videoId>_` convention, and a state-save filename
`<videoId>_<intTimestamp>.png` never parses under it **provided** the
screenshot's `videoId` does not itself start with `yt_` — so for every
state document whose screenshots' video ids lack the `yt_` prefix, every
state-persisted screenshot file survives every cleanup run.  (A
`videoId` starting with `yt_` breaks this — see the counterexample.) -/
theorem cleanup_preserves_state_files
    (videoId : String) (ts : ℚ)
    (hpre : ¬ "yt_".data.isPrefixOf videoId.data = true) :
    parse_video_id (state_save_filename videoId ts) = none ∧
    (∀ (now : ℚ) (files : List FileEntry) (f : FileEntry),
      f ∈ (cleanup_old_screenshots now files).2 →
      (parse_video_id f.name).isSome) ∧
    (∀ (now : ℚ) (files : List FileEntry) (f : FileEntry),
      f ∈ files → f.name = state_save_filename videoId ts →
      f ∈ (cleanup_old_screenshots now files).1) := by
  have hnone : parse_video_id (state_save_filename videoId ts) = none := by
    unfold parse_video_id state_save_filename
    cases hp : parseVideoIdChars
        (String.mk (videoId.data ++ '_' :: (intToChars (pyInt ts) ++ ".png".data))).data with
    | none => rfl
    | some vid =>
      exfalso
      obtain ⟨rest, hshape, hdrop⟩ := parseVideoIdChars_some hp
      match hvd : videoId.data, hshape with
      | [], hshape => simp [hvd] at hshape
      | [c], hshape =>
        simp only [hvd, List.cons_append, List.nil_append, List.cons.injEq] at hshape
        obtain ⟨-, h2, -⟩ := hshape
        exact absurd h2.symm (by
          intro hcontra
          cases hcontra)
      | [c1, c2], hshape =>
        simp only [hvd, List.cons_append, List.nil_append, List.cons.injEq] at hshape
        obtain ⟨rfl, rfl, -, hrest⟩ := hshape
        apply hdrop
        rw [← hrest]
        apply List.dropWhile_eq_nil_iff.mpr
        intro c hc
        rcases List.mem_append.mp hc with hc | hc
        · simpa using intToChars_no_underscore (pyInt ts) c hc
        · simp only [List.mem_cons, List.not_mem_nil, or_false] at hc
          rcases hc with rfl | rfl | rfl | rfl <;> decide
      | c1 :: c2 :: c3 :: tl, hshape =>
        simp only [hvd, List.cons_append, List.cons.injEq] at hshape
        obtain ⟨rfl, rfl, rfl, -⟩ := hshape
        exact hpre (by simp [List.isPrefixOf, hvd])
  refine ⟨hnone, ?_, ?_⟩
  · intro now files f hf
    have hf' : f ∈ (cleanupPass1 now files).deleted ++
        cleanupPass2 (cleanupPass1 now files).groups := hf
    rcases List.mem_append.mp hf' with h | h
    · rw [cleanupPass1_deleted] at h
      obtain ⟨-, hcond⟩ := List.mem_filter.mp h
      simp only [decide_eq_true_eq] at hcond
      exact hcond.1
    · obtain ⟨⟨vid, fs⟩, hg, -, hdrop⟩ := (mem_cleanupPass2 _ f).mp h
      have hfs := group_members now files vid fs hg
      have hmemfs : f ∈ fs :=
        (sortByMtimeDesc_perm fs).mem_iff.mp (List.drop_subset _ _ hdrop)
      rw [hfs] at hmemfs
      have := (List.mem_filter.mp hmemfs).2
      simp only [decide_eq_true_eq] at this
      rw [this.1]
      rfl
  · intro now files f hffiles hname
    refine List.mem_filter.mpr ⟨hffiles, ?_⟩
    simp only [decide_eq_true_eq]
    intro hdel
    have hdeleted : (parse_video_id f.name).isSome := by
      rcases List.mem_append.mp hdel with h | h
      · rw [cleanupPass1_deleted] at h
        obtain ⟨-, hcond⟩ := List.mem_filter.mp h
        simp only [decide_eq_true_eq] at hcond
        exact hcond.1
      · obtain ⟨⟨vid, fs⟩, hg, -, hdrop⟩ := (mem_cleanupPass2 _ f).mp h
        have hfs := group_members now files vid fs hg
        have hmemfs : f ∈ fs :=
          (sortByMtimeDesc_perm fs).mem_iff.mp (List.drop_subset _ _ hdrop)
        rw [hfs] at hmemfs
        have := (List.mem_filter.mp hmemfs).2
        simp only [decide_eq_true_eq] at this
        rw [this.1]
        rfl
    rw [hname, hnone] at hdeleted
    simp at hdeleted

/-- C10 witness: a state file saved for video id `abc` at timestamp 5
survives a cleanup of a directory containing it. -/
theorem cleanup_preserves_state_files_witness :
    (⟨state_save_filename "abc" 5, 0⟩ : FileEntry) ∈
      (cleanup_old_screenshots 700000
        [⟨state_save_filename "abc" 5, 0⟩, ⟨"yt_v_1.webp", 0⟩]).1 :=
  (cleanup_preserves_state_files "abc" 5 (by decide)).2.2 700000
    [⟨state_save_filename "abc" 5, 0⟩, ⟨"yt_v_1.webp", 0⟩]
    ⟨state_save_filename "abc" 5, 0⟩ (by simp) rfl

end QueryClip
